import Mathlib

/-!
# Verification of the GGY3601 deterministic variant generator

A shallow embedding, in Lean 4, of `scripts/variant_generator.py`: the
deterministic per-student variant generator (identifier hasher, group
assigner, seeded parameter generator, dataset synthesizer, and variant
record serializer), together with theorems settling the specification
claims about it.

Modelling conventions:
* Python integers are `Int`/`Nat`; Python's `%` on integers is `Int.fmod`
  (both round toward negative infinity).
* Python floats are modelled as exact rationals (`Rat`); float values in
  this program arise only from `round(uniform(...), k)`, i.e. decimals.
* Python strings are `String`/`List Char`; byte strings are `List Nat`.
* Code that can raise returns `Except PyErr _`; an uncaught exception is
  an `Except.error` propagating to the caller.
* The pseudo-random source `random.Random` is abstracted as a state type
  `σ` with the primitive draw operations the program uses (`RandomOps`);
  the claims under verification do not depend on the Mersenne-Twister
  stream itself, only on seeding, threading, and draw order.
-/

/-- Kinds of Python exceptions this program can raise or propagate. -/
inductive PyErr where
  | zeroDivision
  | indexOut
  | keyMissing (k : String)
  | valueErr (msg : String)
  | userErr (msg : String)
deriving DecidableEq, Repr

/-- A Python value that can appear as a generated parameter (or inside the
variant JSON): `None`, an int, a float (exact rational model), a string,
a list, or a string-keyed dict. Mirrors the `Any` values produced by the
bundled parameter generators. -/
inductive Value where
  | null
  | int (n : Int)
  | float (q : Rat)
  | str (s : String)
  | list (items : List Value)
  | dict (fields : List (String × Value))
deriving Repr

/-- `VariantConfig` dataclass: configuration for variant generation. -/
structure VariantConfig where
  assignment_id : String
  variant_strategy : String
  num_groups : Int := 10
  seed_salt : String := "GGY3601_2025"
deriving Repr

/-- `StudentVariant` dataclass: the generated variant for a student. -/
structure StudentVariant where
  student_id : String
  variant_seed : Nat
  group_id : Option Int
  parameters : List (String × Value)
deriving Repr

/-! ## Decimal digit strings

Self-contained digit rendering (same output as Python's `str` on the
integers this program prints), defined by a recursion the round-trip
proofs can invert. -/

/-- The character of one decimal digit. -/
def digitChar : Nat → Char
  | 0 => '0' | 1 => '1' | 2 => '2' | 3 => '3' | 4 => '4'
  | 5 => '5' | 6 => '6' | 7 => '7' | 8 => '8' | _ => '9'

/-- Decimal digits, fuel-bounded so the recursion is structural (any
`fuel > 0` with `n < 10 ^ fuel` is enough). -/
def natCharsGo : Nat → Nat → List Char
  | 0, _ => []
  | fuel + 1, n =>
    if n < 10 then [digitChar n]
    else natCharsGo fuel (n / 10) ++ [digitChar (n % 10)]

/-- Decimal digits of a natural number, most significant first. -/
def natChars (n : Nat) : List Char := natCharsGo (n + 1) n

/-- Decimal rendering of an integer (same text as Python's `str`). -/
def intChars (i : Int) : List Char :=
  if i < 0 then '-' :: natChars i.natAbs else natChars i.natAbs

/-! ## SHA-256 over byte lists

A byte-level model of `hashlib.sha256`. The round constants are derived,
as in the SHA-256 specification, from the fractional parts of the square
and cube roots of the first primes. All words are `Nat`s reduced mod
`2^32`. -/

/-- `2^32`, the word modulus. -/
def m32 : Nat := 4294967296

/-- Truncate to a 32-bit word. -/
def w32 (x : Nat) : Nat := x % m32

/-- Rotate a 32-bit word right by `n`. -/
def rotr (n x : Nat) : Nat := w32 ((x >>> n) ||| (x <<< (32 - n)))

/-- Bitwise complement within 32 bits. -/
def not32 (x : Nat) : Nat := x ^^^ (m32 - 1)

/-- Trial-division primality test (used only to build the constant tables). -/
def isPrimeB (n : Nat) : Bool :=
  2 ≤ n && (List.range n).all (fun d => d < 2 || n % d != 0)

/-- The first `k` prime numbers (for `k ≤ 64` a search bound of 400 suffices). -/
def firstPrimes (k : Nat) : List Nat :=
  ((List.range 400).filter isPrimeB).take k

/-- Bisection step for the integer cube root. -/
def icbrtGo (n : Nat) : Nat → Nat → Nat → Nat
  | _, lo, 0 => lo
  | hi, lo, fuel + 1 =>
    let mid := (lo + hi) / 2
    if mid = lo then lo
    else if mid * mid * mid ≤ n then icbrtGo n hi mid fuel
    else icbrtGo n mid lo fuel

/-- Integer cube root by bisection. -/
def icbrt (n : Nat) : Nat := icbrtGo n (n + 1) 0 200

/-- First 32 bits of the fractional part of `sqrt p` (initial hash words). -/
def fracSqrt32 (p : Nat) : Nat := w32 (Nat.sqrt (p * 2 ^ 64))

/-- First 32 bits of the fractional part of `cbrt p` (round constants). -/
def fracCbrt32 (p : Nat) : Nat := w32 (icbrt (p * 2 ^ 96))

/-- SHA-256 initial hash value `H0`. -/
def shaH0 : List Nat := (firstPrimes 8).map fracSqrt32

/-- SHA-256 round constants `K`. -/
def shaK : List Nat := (firstPrimes 64).map fracCbrt32

/-- Big-endian bytes of `x`, `len` bytes wide. -/
def toBytesBE (len x : Nat) : List Nat :=
  (List.range len).map (fun i => (x >>> (8 * (len - 1 - i))) % 256)

/-- Group a byte list into big-endian 32-bit words. -/
def bytesToW32 : List Nat → List Nat
  | b0 :: b1 :: b2 :: b3 :: rest => (((b0 * 256 + b1) * 256 + b2) * 256 + b3) :: bytesToW32 rest
  | _ => []

/-- SHA-256 padding: `0x80`, zeros to 56 mod 64, then the 64-bit bit length. -/
def shaPad (msg : List Nat) : List Nat :=
  let L := msg.length
  let z := (119 - L % 64) % 64
  msg ++ 128 :: List.replicate z 0 ++ toBytesBE 8 (8 * L)

/-- Split into 64-byte blocks. -/
def chunks64 (l : List Nat) : List (List Nat) :=
  match l with
  | [] => []
  | x :: xs => (x :: xs).take 64 :: chunks64 ((x :: xs).drop 64)
termination_by l.length
decreasing_by simp [List.length_drop]; omega

def smallSig0 (x : Nat) : Nat := rotr 7 x ^^^ rotr 18 x ^^^ (x >>> 3)
def smallSig1 (x : Nat) : Nat := rotr 17 x ^^^ rotr 19 x ^^^ (x >>> 10)
def bigSig0 (x : Nat) : Nat := rotr 2 x ^^^ rotr 13 x ^^^ rotr 22 x
def bigSig1 (x : Nat) : Nat := rotr 6 x ^^^ rotr 11 x ^^^ rotr 25 x
def chFn (x y z : Nat) : Nat := (x &&& y) ^^^ (not32 x &&& z)
def majFn (x y z : Nat) : Nat := (x &&& z) ^^^ ((x &&& y) ^^^ (y &&& z))

/-- One message-schedule extension step: append word `w[i]` for `i ≥ 16`. -/
def schedStep (w : List Nat) : List Nat :=
  let n := w.length
  w ++ [w32 (smallSig1 (w.getD (n - 2) 0) + w.getD (n - 7) 0 +
             smallSig0 (w.getD (n - 15) 0) + w.getD (n - 16) 0)]

/-- Extend 16 schedule words to 64. -/
def fullSched (w16 : List Nat) : List Nat :=
  (List.range 48).foldl (fun w _ => schedStep w) w16

/-- One compression round on the state `[a,b,c,d,e,f,g,h]`. -/
def compStep (st : List Nat) (kw : Nat × Nat) : List Nat :=
  match st with
  | [a, b, c, d, e, f, g, h] =>
    let t1 := w32 (h + bigSig1 e + chFn e f g + kw.1 + kw.2)
    let t2 := w32 (bigSig0 a + majFn a b c)
    [w32 (t1 + t2), a, b, c, w32 (d + t1), e, f, g]
  | st => st

/-- Compress one 64-byte block into the running hash (8 words). -/
def compressBlock (h : List Nat) (block : List Nat) : List Nat :=
  let ws := fullSched (bytesToW32 block)
  let st := (shaK.zip ws).foldl compStep h
  (h.zip st).map (fun p => w32 (p.1 + p.2))

/-- SHA-256 digest (32 bytes) of a byte list. -/
def sha256 (msg : List Nat) : List Nat :=
  (((chunks64 (shaPad msg)).foldl compressBlock shaH0).map (toBytesBE 4)).flatten

/-! ## UTF-8 encoding (Python's `str.encode()` default) -/

/-- UTF-8 bytes of one Unicode scalar value. -/
def utf8Char (c : Char) : List Nat :=
  let n := c.toNat
  if n < 128 then [n]
  else if n < 2048 then [192 ||| (n >>> 6), 128 ||| (n &&& 63)]
  else if n < 65536 then
    [224 ||| (n >>> 12), 128 ||| ((n >>> 6) &&& 63), 128 ||| (n &&& 63)]
  else
    [240 ||| (n >>> 18), 128 ||| ((n >>> 12) &&& 63),
     128 ||| ((n >>> 6) &&& 63), 128 ||| (n &&& 63)]

/-- UTF-8 bytes of a string. -/
def utf8Str (s : String) : List Nat := s.data.flatMap utf8Char

/-! ## 4.1 Identifier Hasher: `VariantGenerator._compute_seed` -/

/-- `int.from_bytes(bs, byteorder='big')`: fold model, as the source does it. -/
def fromBytesBE (bs : List Nat) : Nat := bs.foldl (fun a b => a * 256 + b) 0

/-- `_compute_seed`: hash `"{assignment_id}:{seed_salt}:{student_id}"` with
SHA-256 and take the first 8 bytes as a big-endian unsigned integer. -/
def compute_seed (assignment_id seed_salt student_id : String) : Nat :=
  fromBytesBE ((sha256 (utf8Str (assignment_id ++ ":" ++ seed_salt ++ ":" ++ student_id))).take 8)

/-- Big-endian interpretation of a byte list, written as the specification
describes it: each byte weighted by `256 ^ (number of bytes after it)`. -/
def beVal : List Nat → Nat
  | [] => 0
  | b :: t => b * 256 ^ t.length + beVal t

/-- The Identifier Hasher as §4.1 of the specification words it: UTF-8 encode
`"{assignment_id}:{seed_salt}:{student_id}"`, SHA-256, take the first 8
bytes, and interpret them as a big-endian unsigned integer. -/
def compute_seed_spec (assignment_id seed_salt student_id : String) : Nat :=
  beVal ((sha256 (utf8Str (assignment_id ++ ":" ++ seed_salt ++ ":" ++ student_id))).take 8)

/-! ## The pseudo-random source model

`random.Random` is modelled as an abstract state type `σ` with the
primitive draws the program performs. Each primitive returns a value and
the advanced state; the model does not fix the Mersene-Twister stream,
only the seeding and sequential threading that the source code exhibits. -/

/-- The primitive operations of a seeded `random.Random` instance. -/
structure RandomOps (σ : Type) where
  /-- `random.Random(seed)` -/
  init : Nat → σ
  /-- `rng.randint(a, b)` (value expected in `[a, b]`; see `LawfulRandom`) -/
  randint : Int → Int → σ → Int × σ
  /-- `rng.uniform(a, b)` -/
  uniform : Rat → Rat → σ → Rat × σ
  /-- the index drawn by `rng.choice` on a sequence of the given length -/
  pick : Nat → σ → Nat × σ
  /-- the indices drawn by `rng.sample(population, k)` -/
  sampleIdx : Nat → Nat → σ → List Nat × σ
  /-- `rng.random()` -/
  rand : σ → Rat × σ

/-- The bound Python's `randint` guarantees on its result: used as a
hypothesis where a drawn value feeds a later size argument. -/
def LawfulRandom {σ : Type} (ops : RandomOps σ) : Prop :=
  ∀ a b s, a ≤ b → a ≤ (ops.randint a b s).1 ∧ (ops.randint a b s).1 ≤ b

/-- `rng.randint(a, b)`: raises `ValueError` on an empty range. -/
def pyRandint {σ : Type} (ops : RandomOps σ) (a b : Int) (s : σ) :
    Except PyErr (Int × σ) :=
  if b < a then .error (.valueErr "empty range for randrange") else .ok (ops.randint a b s)

/-- `rng.choice(xs)`: raises `IndexError` on an empty sequence. The drawn
index is reduced mod the length so the model is total in the draw. -/
def pyChoice {σ α : Type} (ops : RandomOps σ) (xs : List α) (s : σ) :
    Except PyErr (α × σ) :=
  match xs with
  | [] => .error .indexOut
  | x :: t =>
    let (i, s') := ops.pick (t.length + 1) s
    .ok ((x :: t).getD (i % (t.length + 1)) x, s')

/-- `rng.sample(xs, k)`: raises `ValueError` if `k` exceeds the population. -/
def pySample {σ α : Type} (ops : RandomOps σ) (xs : List α) (k : Nat) (s : σ) :
    Except PyErr (List α × σ) :=
  if k ≤ xs.length then
    match xs with
    | [] => .ok ([], s)
    | x :: t =>
      let (is, s') := ops.sampleIdx k (t.length + 1) s
      .ok ((is.take k).map (fun i => (x :: t).getD (i % (t.length + 1)) x), s')
  else .error (.valueErr "Sample larger than population or is negative")

/-- Python's `round(x, ndigits)` on our exact-rational float model:
round half to even at `ndigits` decimal places. -/
def pyRound (q : Rat) (ndigits : Nat) : Rat :=
  let p : Rat := (10 : Rat) ^ ndigits
  let y := q * p
  let f : Int := ⌊y⌋
  let d := y - (f : Rat)
  let r : Int :=
    if d < 1/2 then f
    else if 1/2 < d then f + 1
    else if f % 2 = 0 then f else f + 1
  (r : Rat) / p

/-- Draw `n` values sequentially with a pure draw, threading the state. -/
def repeatDraw {σ α : Type} : Nat → (σ → α × σ) → σ → List α × σ
  | 0, _, s => ([], s)
  | n + 1, f, s =>
    let (x, s') := f s
    let (xs, s'') := repeatDraw n f s'
    (x :: xs, s'')

/-- Draw `n` values sequentially with a fallible draw, threading the state. -/
def repeatDrawE {σ α : Type} : Nat → (σ → Except PyErr (α × σ)) → σ →
    Except PyErr (List α × σ)
  | 0, _, s => .ok ([], s)
  | n + 1, f, s =>
    match f s with
    | .error e => .error e
    | .ok (x, s') =>
      match repeatDrawE n f s' with
      | .error e => .error e
      | .ok (xs, s'') => .ok (x :: xs, s'')

/-! ## 4.2 Group Assigner: `VariantGenerator._compute_group` -/

/-- `_compute_group`: `seed % num_groups` with Python's integer `%`
(floor division remainder, `ZeroDivisionError` on a zero modulus). -/
def compute_group (seed : Int) (num_groups : Int) : Except PyErr Int :=
  if num_groups = 0 then .error .zeroDivision else .ok (Int.fmod seed num_groups)

/-! ## 4.3 Seeded Parameter Generator: `generate_variant` / `generate_batch` -/

/-- A parameter-generator function: takes the seeded random source and the
group id and produces a value (or raises). -/
def PGen (σ : Type) : Type := σ → Option Int → Except PyErr (Value × σ)

/-- The `for param_name, generator_func in param_generators.items()` loop:
build the parameters mapping in table order, threading the random state;
an exception aborts the whole loop. -/
def genParams {σ : Type} : List (String × PGen σ) → Option Int → σ →
    Except PyErr (List (String × Value) × σ)
  | [], _, s => .ok ([], s)
  | (n, g) :: rest, gid, s =>
    match g s gid with
    | .error e => .error e
    | .ok (v, s') =>
      match genParams rest gid s' with
      | .error e => .error e
      | .ok (ps, s'') => .ok ((n, v) :: ps, s'')

/-- `VariantGenerator.generate_variant`: compute the seed, compute the group
id unless the strategy is `'unique'`, seed a fresh random instance, and run
every generator in table order. -/
def generate_variant {σ : Type} (ops : RandomOps σ) (config : VariantConfig)
    (student_id : String) (param_generators : List (String × PGen σ)) :
    Except PyErr StudentVariant :=
  let seed := compute_seed config.assignment_id config.seed_salt student_id
  match (if config.variant_strategy ≠ "unique"
         then (compute_group (seed : Int) config.num_groups).map some
         else .ok none) with
  | .error e => .error e
  | .ok group_id =>
    match genParams param_generators group_id (ops.init seed) with
    | .error e => .error e
    | .ok (parameters, _) =>
      .ok { student_id := student_id, variant_seed := seed,
            group_id := group_id, parameters := parameters }

/-- `VariantGenerator.generate_batch`: the list comprehension
`[self.generate_variant(sid, param_generators) for sid in student_ids]`. -/
def generate_batch {σ : Type} (ops : RandomOps σ) (config : VariantConfig)
    (student_ids : List String) (param_generators : List (String × PGen σ)) :
    Except PyErr (List StudentVariant) :=
  match student_ids with
  | [] => .ok []
  | sid :: rest =>
    match generate_variant ops config sid param_generators with
    | .error e => .error e
    | .ok v =>
      match generate_batch ops config rest param_generators with
      | .error e => .error e
      | .ok vs => .ok (v :: vs)

/-! ## Bundled per-assignment generator tables

Each `create_*_generators` function below is the shallow embedding of the
same-named Python function; each table entry mirrors one nested generator
function, drawing from the random source in the same order as the Python
body. Small shared shapes (`return rng.randint(a, b)` and friends) are
factored through the helpers right below. -/

/-- A generator whose body is `return rng.randint(a, b)`. -/
def genRandint {σ : Type} (ops : RandomOps σ) (a b : Int) : PGen σ :=
  fun s _ => (pyRandint ops a b s).map (fun p => (.int p.1, p.2))

/-- A generator whose body is `return round(rng.uniform(a, b), d)`. -/
def genRoundUniform {σ : Type} (ops : RandomOps σ) (a b : Rat) (d : Nat) : PGen σ :=
  fun s _ =>
    let (q, s') := ops.uniform a b s
    .ok (.float (pyRound q d), s')

/-- A generator whose body is `return rng.choice(xs)` over strings. -/
def genChoiceStr {σ : Type} (ops : RandomOps σ) (xs : List String) : PGen σ :=
  fun s _ => (pyChoice ops xs s).map (fun p => (.str p.1, p.2))

/-- A generator whose body is `return rng.choice(xs)` over ints. -/
def genChoiceInt {σ : Type} (ops : RandomOps σ) (xs : List Int) : PGen σ :=
  fun s _ => (pyChoice ops xs s).map (fun p => (.int p.1, p.2))

/-- A generator whose body is `return rng.sample(xs, k)` over strings. -/
def genSampleStr {σ : Type} (ops : RandomOps σ) (xs : List String) (k : Nat) : PGen σ :=
  fun s _ => (pySample ops xs k s).map (fun p => (.list (p.1.map .str), p.2))

/-- Generators for Lab 1: Python Fundamentals. -/
def create_lab01_generators {σ : Type} (ops : RandomOps σ) : List (String × PGen σ) :=
  [("sample_depth", genRandint ops 150 450),
   ("sample_mass", genRoundUniform ops 10.0 25.0 1),
   ("sample_volume", genRoundUniform ops 3.0 8.0 1),
   ("rock_type", genChoiceStr ops ["Granite", "Basalt", "Sandstone", "Schist", "Gneiss"]),
   ("grade_value", genRoundUniform ops 0.5 4.5 2)]

/-- Generators for Lab 2: Control Flow and Functions. -/
def create_lab02_generators {σ : Type} (ops : RandomOps σ) : List (String × PGen σ) :=
  [("grade_thresholds", fun s _ =>
      let (base_high, s') := ops.uniform 2.8 3.2 s
      .ok (.dict [("high", .float (pyRound base_high 1)),
                  ("medium", .float (pyRound (base_high - 1.0) 1)),
                  ("low", .float (pyRound (base_high - 2.0) 1))], s')),
   ("test_samples", fun s _ =>
      let (xs, s') := repeatDraw 8 (fun t =>
        let (q, t') := ops.uniform (-0.5) 5.0 t
        (pyRound q 1, t')) s
      .ok (.list (xs.map .float), s')),
   ("drilling_depths", fun s _ =>
      (repeatDrawE 4 (fun t => pyRandint ops 100 1200 t) s).map
        (fun p => (.list (p.1.map .int), p.2))),
   ("base_rate", genChoiceInt ops [45, 50, 55, 60, 65, 70, 75])]

/-- Generators for Lab 3: Data Structures. -/
def create_lab03_generators {σ : Type} (ops : RandomOps σ) : List (String × PGen σ) :=
  [("sample_count", genRandint ops 8 15),
   ("rock_types", fun s _ =>
      match pyRandint ops 3 5 s with
      | .error e => .error e
      | .ok (k, s') =>
        (pySample ops ["Granite", "Basalt", "Sandstone", "Schist", "Gneiss",
                       "Quartzite", "Diorite"] k.toNat s').map
          (fun p => (.list (p.1.map .str), p.2))),
   ("grade_range", fun s _ =>
      let (q, s') := ops.uniform 0.2 0.8 s
      let min_val := pyRound q 1
      let (u, s'') := ops.uniform 3.0 5.0 s'
      .ok (.dict [("min", .float min_val), ("max", .float (pyRound (min_val + u) 1))], s''))]

/-- Generators for Lab 4: File Input/Output and CSV Processing. -/
def create_lab04_generators {σ : Type} (ops : RandomOps σ) : List (String × PGen σ) :=
  [("num_records", genRandint ops 40 60),
   ("locations", fun s _ =>
      match pyRandint ops 2 4 s with
      | .error e => .error e
      | .ok (k, s') =>
        (pySample ops ["Site-A", "Site-B", "Site-C", "Site-D", "Site-E"] k.toNat s').map
          (fun p => (.list (p.1.map .str), p.2))),
   ("depth_range", fun s _ =>
      match pyRandint ops 50 150 s with
      | .error e => .error e
      | .ok (min_d, s') =>
        (pyRandint ops 300 500 s').map
          (fun p => (.dict [("min", .int min_d), ("max", .int (min_d + p.1))], p.2))),
   ("include_errors", genRandint ops 2 5)]

/-- Generators for Lab 5: pandas Analysis. -/
def create_lab05_generators {σ : Type} (ops : RandomOps σ) : List (String × PGen σ) :=
  [("analysis_columns", genSampleStr ops ["grade", "depth", "mass", "volume", "density"] 3),
   ("groupby_column", genChoiceStr ops ["rock_type", "location", "analyst"]),
   ("filter_threshold", genRoundUniform ops 1.5 3.5 1),
   ("num_records", genRandint ops 150 250)]

/-- Generators for Lab 6: Integration Project. -/
def create_lab06_generators {σ : Type} (ops : RandomOps σ) : List (String × PGen σ) :=
  [("project_name", fun s _ =>
      match pyChoice ops ["Aurora", "Copper", "Golden", "Silver", "Iron", "Zinc"] s with
      | .error e => .error e
      | .ok (p, s') =>
        (pyChoice ops ["Ridge", "Valley", "Peak", "Basin", "Creek", "Hill"] s').map
          (fun q => (.str (p ++ " " ++ q.1 ++ " Project"), q.2))),
   ("num_drillholes", genRandint ops 4 8),
   ("target_grade", genRoundUniform ops 1.5 2.5 2),
   ("num_samples", genRandint ops 250 350)]

/-- Generators for Coding Assignment 1: Geology Toolkit. -/
def create_ca01_generators {σ : Type} (ops : RandomOps σ) : List (String × PGen σ) :=
  [("commodity", genChoiceStr ops ["gold", "copper", "iron"]),
   ("hardness_options", genSampleStr ops ["soft", "medium", "hard", "very_hard"] 3),
   ("base_drilling_rate", genChoiceInt ops [65, 70, 75, 80, 85]),
   ("depth_bonus_threshold", genChoiceInt ops [400, 500, 600]),
   ("num_test_samples", genRandint ops 45 55)]

/-- Generators for Coding Assignment 2: Geochemical Analysis. -/
def create_ca02_generators {σ : Type} (ops : RandomOps σ) : List (String × PGen σ) :=
  [("primary_element", genChoiceStr ops ["Au", "Cu", "Ag", "Fe"]),
   ("secondary_elements", genSampleStr ops ["Au", "Cu", "Ag", "Fe", "S", "As", "Pb", "Zn"] 3),
   ("quality_filter", genChoiceStr ops ["Good", "Fair"]),
   ("anomaly_threshold_multiplier", genRoundUniform ops 2.0 3.0 1),
   ("num_assays", genRandint ops 450 550)]

/-- Generators for the Mini-Project: Field Sample Pipeline. -/
def create_miniproject_generators {σ : Type} (ops : RandomOps σ) : List (String × PGen σ) :=
  [("study_area", genChoiceStr ops ["Northern Zone", "Eastern Block", "Western Prospect",
                                    "Central Basin", "Southern Ridge"]),
   ("target_elements", genSampleStr ops ["Au", "Cu", "Pb", "Zn", "As"] 3),
   ("collector_filter", genChoiceStr ops ["A. Smith", "B. Johnson", "C. Williams", "D. Brown"]),
   ("elevation_range", fun s _ =>
      match pyRandint ops 1200 1400 s with
      | .error e => .error e
      | .ok (base, s') =>
        (pyRandint ops 300 500 s').map
          (fun p => (.dict [("min", .int base), ("max", .int (base + p.1))], p.2))),
   ("anomaly_percentile", genChoiceInt ops [90, 95]),
   ("num_samples", genRandint ops 750 850)]

/-- The `ASSIGNMENT_GENERATORS` mapping from assignment id to its generator
table (each entry applies the corresponding `create_*_generators`). -/
def ASSIGNMENT_GENERATORS {σ : Type} (ops : RandomOps σ) :
    List (String × List (String × PGen σ)) :=
  [("lab01", create_lab01_generators ops),
   ("lab02", create_lab02_generators ops),
   ("lab03", create_lab03_generators ops),
   ("lab04", create_lab04_generators ops),
   ("lab05", create_lab05_generators ops),
   ("lab06", create_lab06_generators ops),
   ("ca01", create_ca01_generators ops),
   ("ca02", create_ca02_generators ops),
   ("miniproject", create_miniproject_generators ops)]

/-! ## Decimal rendering of float values

Our floats are exact rationals; the ones this program produces come from
`round(_, k)` and are decimals (denominator dividing a power of ten).
`floatChars` renders such a rational the way Python's `str` renders the
corresponding float: minimal decimal digits, at least one fractional
digit. -/

/-- Divide out all factors `p` (for `2 ≤ p`). -/
def stripP (p n : Nat) : Nat :=
  if h : 2 ≤ p ∧ n ≠ 0 ∧ n % p = 0 then stripP p (n / p)
  else n
termination_by n
decreasing_by exact Nat.div_lt_self (Nat.pos_of_ne_zero h.2.1) h.1

/-- Multiplicity of the factor `p` in `n` (for `2 ≤ p`). -/
def pMult (p n : Nat) : Nat :=
  if h : 2 ≤ p ∧ n ≠ 0 ∧ n % p = 0 then pMult p (n / p) + 1
  else 0
termination_by n
decreasing_by exact Nat.div_lt_self (Nat.pos_of_ne_zero h.2.1) h.1

/-- Does this rational denote a decimal (denominator `2^a * 5^b`)? -/
def ratDecB (q : Rat) : Bool := stripP 5 (stripP 2 q.den) == 1

/-- Number of decimal digits `floatChars` prints after the point: the least
`e ≥ 1` with `q.den ∣ 10^e`, for decimal `q` (the max of the 2- and
5-multiplicities of the denominator, at least 1). -/
def decExp (q : Rat) : Nat := max 1 (max (pMult 2 q.den) (pMult 5 (stripP 2 q.den)))

/-- Exactly `e` decimal digits of the fraction numerator `f < 10^e`,
most significant first. -/
def fracChars : Nat → Nat → List Char
  | 0, _ => []
  | e + 1, f => digitChar (f / 10 ^ e) :: fracChars e (f % 10 ^ e)

/-- Python's decimal text of a float value (exact-decimal model): optional
sign, integer digits, `'.'`, then `decExp q` fraction digits. -/
def floatChars (q : Rat) : List Char :=
  let e := decExp q
  let m : Int := q.num * (10 : Int) ^ e / (q.den : Int)
  (if m < 0 then ['-'] else []) ++
    natChars (m.natAbs / 10 ^ e) ++ '.' :: fracChars e (m.natAbs % 10 ^ e)

/-! ## Python `str`/`repr` text of values -/

mutual
/-- `repr(v)` for the values this program handles. -/
def pyReprV : Value → List Char
  | .null => ['N', 'o', 'n', 'e']
  | .int n => intChars n
  | .float q => floatChars q
  | .str s => '\'' :: s.data ++ ['\'']
  | .list vs => '[' :: pyReprItems vs ++ [']']
  | .dict kvs => '{' :: pyReprFields kvs ++ ['}']
/-- `", ".join` of element reprs, as inside `repr` of a list. -/
def pyReprItems : List Value → List Char
  | [] => []
  | [v] => pyReprV v
  | v :: rest => pyReprV v ++ ',' :: ' ' :: pyReprItems rest
/-- `'key': value` pairs as inside `repr` of a dict. -/
def pyReprFields : List (String × Value) → List Char
  | [] => []
  | [(k, v)] => '\'' :: k.data ++ '\'' :: ':' :: ' ' :: pyReprV v
  | (k, v) :: rest =>
    '\'' :: k.data ++ '\'' :: ':' :: ' ' :: pyReprV v ++ ',' :: ' ' :: pyReprFields rest
end

/-- `str(v)`: identical to `repr(v)` except on strings. -/
def pyStrV : Value → List Char
  | .str s => s.data
  | v => pyReprV v

/-! ## JSON rendering (`json.dumps`) -/

/-- A lowercase hexadecimal digit. -/
def hexChar : Nat → Char
  | 0 => '0' | 1 => '1' | 2 => '2' | 3 => '3' | 4 => '4' | 5 => '5' | 6 => '6'
  | 7 => '7' | 8 => '8' | 9 => '9' | 10 => 'a' | 11 => 'b' | 12 => 'c'
  | 13 => 'd' | 14 => 'e' | _ => 'f'

/-- Four hex digits of `n < 0x10000`. -/
def hex4 (n : Nat) : List Char :=
  [hexChar (n / 4096 % 16), hexChar (n / 256 % 16), hexChar (n / 16 % 16), hexChar (n % 16)]

/-- One character, JSON-escaped the way `json.dumps` (with `ensure_ascii`)
escapes it. Characters beyond `0xFFFF` would use surrogate pairs; the
round-trip theorems restrict strings to ASCII, where this model is exact. -/
def escChar (c : Char) : List Char :=
  if c = '"' then ['\\', '"']
  else if c = '\\' then ['\\', '\\']
  else if c = '\n' then ['\\', 'n']
  else if c = '\t' then ['\\', 't']
  else if c = '\r' then ['\\', 'r']
  else if c = Char.ofNat 8 then ['\\', 'b']
  else if c = Char.ofNat 12 then ['\\', 'f']
  else if 32 ≤ c.toNat ∧ c.toNat < 127 then [c]
  else '\\' :: 'u' :: hex4 (c.toNat % 65536)

/-- A JSON string literal: quoted, escaped. -/
def qstr (s : String) : List Char := '"' :: (s.data.flatMap escChar ++ ['"'])

mutual
/-- `json.dumps(v)` with the default compact separators `", "`, `": "`. -/
def jsonC : Value → List Char
  | .null => ['n', 'u', 'l', 'l']
  | .int n => intChars n
  | .float q => floatChars q
  | .str s => qstr s
  | .list vs => '[' :: (jsonCItems vs ++ [']'])
  | .dict kvs => '{' :: (jsonCFields kvs ++ ['}'])
/-- Compact list elements, `", "`-separated. -/
def jsonCItems : List Value → List Char
  | [] => []
  | [v] => jsonC v
  | v :: rest => jsonC v ++ ',' :: ' ' :: jsonCItems rest
/-- Compact object members, `", "`-separated, `": "` after each key. -/
def jsonCFields : List (String × Value) → List Char
  | [] => []
  | [(k, v)] => qstr k ++ ':' :: ' ' :: jsonC v
  | (k, v) :: rest => qstr k ++ ':' :: ' ' :: jsonC v ++ ',' :: ' ' :: jsonCFields rest
end

/-- Newline plus two-space indentation at nesting level `k`. -/
def nlInd (k : Nat) : List Char := '\n' :: List.replicate (2 * k) ' '

mutual
/-- `json.dumps(v, indent=2)` at nesting level `ind`. -/
def jsonL (ind : Nat) : Value → List Char
  | .null => ['n', 'u', 'l', 'l']
  | .int n => intChars n
  | .float q => floatChars q
  | .str s => qstr s
  | .list [] => ['[', ']']
  | .list (v :: vs) =>
    '[' :: (nlInd (ind + 1) ++ jsonL (ind + 1) v ++ jsonLItems (ind + 1) vs ++
            nlInd ind ++ [']'])
  | .dict [] => ['{', '}']
  | .dict ((k, v) :: kvs) =>
    '{' :: (nlInd (ind + 1) ++ qstr k ++ ':' :: ' ' :: jsonL (ind + 1) v ++
            jsonLFields (ind + 1) kvs ++ nlInd ind ++ ['}'])
/-- Remaining indented list elements, each after `",\n" ++ indent`. -/
def jsonLItems (ind : Nat) : List Value → List Char
  | [] => []
  | v :: vs => ',' :: (nlInd ind ++ jsonL ind v ++ jsonLItems ind vs)
/-- Remaining indented object members. -/
def jsonLFields (ind : Nat) : List (String × Value) → List Char
  | [] => []
  | (k, v) :: kvs =>
    ',' :: (nlInd ind ++ qstr k ++ ':' :: ' ' :: jsonL ind v ++ jsonLFields ind kvs)
end

/-- `dataclasses.asdict` of a `StudentVariant`, as a JSON value. -/
def variantToJson (v : StudentVariant) : Value :=
  .dict [("student_id", .str v.student_id),
         ("variant_seed", .int (v.variant_seed : Int)),
         ("group_id", (v.group_id.map Value.int).getD .null),
         ("parameters", .dict v.parameters)]

/-- `generate_variant_config_file`: `json.dumps(asdict(variant), indent=2)`. -/
def generate_variant_config_file (variant : StudentVariant) : String :=
  ⟨jsonL 0 (variantToJson variant)⟩

/-! ## 4.4 Dataset Synthesizer: `generate_sample_data`

The synthesizer writes at most one CSV file; the model returns
`some (filename, rows)` for the written file (rows as lists of cell
texts, header first) or `none` when no file is written. -/

/-- `d.get(k, default)` on a parameters mapping. -/
def dictGet (ps : List (String × Value)) (k : String) (dflt : Value) : Value :=
  (ps.lookup k).getD dflt

/-- `d[k]` on a dict value: `KeyError` when absent, `TypeError`-like error
when not a dict. -/
def dictIndex (v : Value) (k : String) : Except PyErr Value :=
  match v with
  | .dict fields =>
    match fields.lookup k with
    | some x => .ok x
    | none => .error (.keyMissing k)
  | _ => .error (.valueErr "value is not a mapping")

/-- Use a value as a Python int (raise otherwise). -/
def asInt (v : Value) : Except PyErr Int :=
  match v with
  | .int n => .ok n
  | _ => .error (.valueErr "an integer is required")

/-- Zero-pad digit text on the left to width `w` (`f"{i:0wd}"`). -/
def padZeros (w : Nat) (ds : List Char) : List Char :=
  List.replicate (w - ds.length) '0' ++ ds

/-- One generated row of `samples.csv` (draws in source order: rock type,
grade, depth, mass, location). -/
def samplesRow {σ : Type} (ops : RandomOps σ) (locationsV depthV : Value)
    (i : Nat) (s : σ) : Except PyErr (List String × σ) :=
  match pyChoice ops ["Granite", "Basalt", "Sandstone", "Schist", "Gneiss"] s with
  | .error e => .error e
  | .ok (rock, s1) =>
    let (gq, s2) := ops.uniform 0.3 5.0 s1
    let grade := pyRound gq 2
    match dictIndex depthV "min" with
    | .error e => .error e
    | .ok dminV =>
      match asInt dminV with
      | .error e => .error e
      | .ok dmin =>
        match dictIndex depthV "max" with
        | .error e => .error e
        | .ok dmaxV =>
          match asInt dmaxV with
          | .error e => .error e
          | .ok dmax =>
            match pyRandint ops dmin dmax s2 with
            | .error e => .error e
            | .ok (depth, s3) =>
              let (mq, s4) := ops.uniform 8.0 20.0 s3
              let mass := pyRound mq 1
              match locationsV with
              | .list ls =>
                match pyChoice ops ls s4 with
                | .error e => .error e
                | .ok (loc, s5) =>
                  .ok (["GEO-" ++ ⟨padZeros 3 (natChars i)⟩, rock,
                        ⟨floatChars grade⟩, ⟨intChars depth⟩,
                        ⟨floatChars mass⟩, ⟨pyStrV loc⟩], s5)
              | _ => .error (.valueErr "locations is not a sequence")

/-- The `for i in range(1, num_records + 1)` loop of the samples branch. -/
def samplesLoop {σ : Type} (ops : RandomOps σ) (locationsV depthV : Value) :
    Nat → Nat → σ → Except PyErr (List (List String) × σ)
  | 0, _, s => .ok ([], s)
  | n + 1, i, s =>
    match samplesRow ops locationsV depthV i s with
    | .error e => .error e
    | .ok (row, s') =>
      match samplesLoop ops locationsV depthV n (i + 1) s' with
      | .error e => .error e
      | .ok (rows, s'') => .ok (row :: rows, s'')

/-- An optionally-missing assay cell: `value if rng.random() > 0.05 else ''`
(the `random()` draw happens first, the value draw only when kept). -/
def assayCell {σ : Type} (ops : RandomOps σ) (a b : Rat) (d : Nat) (s : σ) :
    String × σ :=
  let (r, s1) := ops.rand s
  if (0.05 : Rat) < r then
    let (q, s2) := ops.uniform a b s1
    (⟨floatChars (pyRound q d)⟩, s2)
  else ("", s1)

/-- One generated row of `geochemical_assays.csv` (draws in source order). -/
def assaysRow {σ : Type} (ops : RandomOps σ) (i : Nat) (s : σ) :
    Except PyErr (List String × σ) :=
  match pyRandint ops 1 5 s with
  | .error e => .error e
  | .ok (hole, s1) =>
    match pyRandint ops 10 450 s1 with
    | .error e => .error e
    | .ok (from_depth, s2) =>
      match pyRandint ops 1 4 s2 with
      | .error e => .error e
      | .ok (dto, s3) =>
        match pyChoice ops ["Granite", "Basalt", "Schist", "Quartzite", "Gneiss"] s3 with
        | .error e => .error e
        | .ok (lith, s4) =>
          let (au, s5) := assayCell ops 0.01 6.0 3 s4
          let (cu, s6) := assayCell ops 0.1 3.0 3 s5
          let (ag, s7) := assayCell ops 1.0 15.0 2 s6
          let (feq, s8) := ops.uniform 3.0 12.0 s7
          let (sq, s9) := ops.uniform 0.2 4.5 s8
          match pyChoice ops ["Good", "Fair", "Rejected"] s9 with
          | .error e => .error e
          | .ok (quality, s10) =>
            match pyRandint ops 1 12 s10 with
            | .error e => .error e
            | .ok (mo, s11) =>
              match pyRandint ops 1 28 s11 with
              | .error e => .error e
              | .ok (dy, s12) =>
                .ok (["ASY-" ++ ⟨padZeros 4 (natChars i)⟩,
                      "DH-" ++ ⟨padZeros 2 (intChars hole)⟩,
                      ⟨intChars from_depth⟩, ⟨intChars (from_depth + dto)⟩, lith,
                      au, cu, ag, ⟨floatChars (pyRound feq 2)⟩,
                      ⟨floatChars (pyRound sq 2)⟩, quality,
                      "2024-" ++ ⟨padZeros 2 (intChars mo)⟩ ++ "-" ++ ⟨padZeros 2 (intChars dy)⟩], s12)

/-- The `for i in range(1, num_assays + 1)` loop of the assays branch. -/
def assaysLoop {σ : Type} (ops : RandomOps σ) :
    Nat → Nat → σ → Except PyErr (List (List String) × σ)
  | 0, _, s => .ok ([], s)
  | n + 1, i, s =>
    match assaysRow ops i s with
    | .error e => .error e
    | .ok (row, s') =>
      match assaysLoop ops n (i + 1) s' with
      | .error e => .error e
      | .ok (rows, s'') => .ok (row :: rows, s'')

/-- `generate_sample_data`: re-seed a fresh random source from the variant
seed and write the assignment-specific CSV; unrecognized assignment types
write nothing and do not fail. -/
def generate_sample_data {σ : Type} (ops : RandomOps σ) (variant : StudentVariant)
    (assignment_type : String) : Except PyErr (Option (String × List (List String))) :=
  let s0 := ops.init variant.variant_seed
  if assignment_type = "lab04" ∨ assignment_type = "lab05" ∨ assignment_type = "ca01" then
    let num_recordsV := dictGet variant.parameters "num_records" (.int 50)
    let locationsV := dictGet variant.parameters "locations" (.list [.str "Site-A", .str "Site-B"])
    let depth_rangeV := dictGet variant.parameters "depth_range"
      (.dict [("min", .int 50), ("max", .int 500)])
    match asInt num_recordsV with
    | .error e => .error e
    | .ok num_records =>
      match samplesLoop ops locationsV depth_rangeV num_records.toNat 1 s0 with
      | .error e => .error e
      | .ok (rows, _) =>
        .ok (some ("samples.csv",
          ["sample_id", "rock_type", "grade", "depth", "mass", "location"] :: rows))
  else if assignment_type = "ca02" then
    let num_assaysV := dictGet variant.parameters "num_assays" (.int 500)
    match asInt num_assaysV with
    | .error e => .error e
    | .ok num_assays =>
      match assaysLoop ops num_assays.toNat 1 s0 with
      | .error e => .error e
      | .ok (rows, _) =>
        .ok (some ("geochemical_assays.csv",
          ["sample_id", "hole_id", "from_depth", "to_depth", "lithology",
           "Au_ppm", "Cu_pct", "Ag_ppm", "Fe_pct", "S_pct", "sample_quality",
           "assay_date"] :: rows))
  else .ok none

/-! ## 4.5 Variant Record Serializer: `generate_student_readme` -/

/-- Fuel-bounded body of `str.replace` (structural; one fuel per step,
and every step consumes at least one character, so the input length is
enough fuel). -/
def replaceGo (pat rep : List Char) : Nat → List Char → List Char
  | 0, s => s
  | _ + 1, [] => []
  | fuel + 1, c :: cs =>
    if pat.isPrefixOf (c :: cs) then rep ++ replaceGo pat rep fuel (cs.drop (pat.length - 1))
    else c :: replaceGo pat rep fuel cs

/-- Python's `str.replace(pat, rep)`: replace every (leftmost-first,
non-overlapping) occurrence. The patterns used here, `"{name}"`, are
never empty. -/
def replaceL (pat rep s : List Char) : List Char := replaceGo pat rep s.length s

/-- `", ".join(str(v) for v in items)`. -/
def joinStrComma : List Value → List Char
  | [] => []
  | [v] => pyStrV v
  | v :: rest => pyStrV v ++ ',' :: ' ' :: joinStrComma rest

/-- The per-parameter formatting in `generate_student_readme`: lists joined
with `", "`, dicts via `json.dumps`, anything else via `str`. -/
def valueToStr : Value → List Char
  | .list vs => joinStrComma vs
  | .dict kvs => jsonC (.dict kvs)
  | v => pyStrV v

/-- `str` of an optional int, as in the metadata f-string (`None` or digits). -/
def optIntStr : Option Int → List Char
  | none => ['N', 'o', 'n', 'e']
  | some n => intChars n

/-- The interpolated `VARIANT_METADATA` HTML comment. -/
def metaBlock (variant : StudentVariant) : List Char :=
  "<!--\nVARIANT_METADATA\nStudent: ".data ++ variant.student_id.data ++
  "\nSeed: ".data ++ natChars variant.variant_seed ++
  "\nGroup: ".data ++ optIntStr variant.group_id ++
  "\nGenerated: AUTO\nDO NOT MODIFY THIS COMMENT\n-->".data

/-- The substitution loop of `generate_student_readme`: for each parameter
in mapping order, `content = content.replace("{name}", value_str)`. -/
def render_body (params : List (String × Value)) (template : List Char) : List Char :=
  params.foldl
    (fun content p => replaceL ('{' :: (p.1.data ++ ['}'])) (valueToStr p.2) content)
    template

/-- `generate_student_readme`: metadata block, blank line, substituted body. -/
def generate_student_readme (variant : StudentVariant) (template : String) : List Char :=
  metaBlock variant ++ '\n' :: '\n' :: render_body variant.parameters template.data

/-! ## The template substitution, as the specification words it

The specification's `render_readme` contract speaks of "`{parameter_name}`
placeholders literally present in the template". A template whose braces
occur only as such simple placeholders decomposes into literal chunks and
placeholder names; `fillAll` below substitutes every placeholder whose
name is a parameter key and leaves the rest intact, in one simultaneous
pass. -/

/-- A template piece: a literal chunk, or a `{name}` placeholder. -/
inductive Chunk where
  | lit (cs : List Char)
  | hole (name : String)

/-- The template text a chunk list denotes. -/
def flatChunks : List Chunk → List Char
  | [] => []
  | .lit cs :: r => cs ++ flatChunks r
  | .hole n :: r => '{' :: (n.data ++ '}' :: flatChunks r)

/-- Substitute one placeholder chunk, leaving unmatched names intact. -/
def fillChunk (params : List (String × Value)) : Chunk → Chunk
  | .lit cs => .lit cs
  | .hole n =>
    match params.lookup n with
    | some v => .lit (valueToStr v)
    | none => .hole n

/-- The specification's simultaneous substitution over a template. -/
def fillAll (params : List (String × Value)) (items : List Chunk) : List Char :=
  flatChunks (items.map (fillChunk params))

/-! ## A JSON reader (the `json.loads` side of the round trip)

A standard recursive-descent reader over characters, total via a fuel
argument; whitespace between tokens is skipped, so it reads both the
compact and the indented rendering. -/

/-- JSON whitespace. -/
def iswsp (c : Char) : Bool := c = ' ' || c = '\n' || c = '\t' || c = '\r'

/-- Skip leading whitespace. -/
def dropWs : List Char → List Char
  | c :: cs => if iswsp c then dropWs cs else c :: cs
  | [] => []

/-- Decimal digit test. -/
def isDig (c : Char) : Bool := '0' ≤ c && c ≤ '9'

/-- Value of a digit character. -/
def digVal (c : Char) : Nat := c.toNat - 48

/-- Take the leading run of digits. -/
def grabDigits : List Char → List Char × List Char
  | c :: cs =>
    if isDig c then
      let (ds, r) := grabDigits cs
      (c :: ds, r)
    else ([], c :: cs)
  | [] => ([], [])

/-- Numeric value of a digit run. -/
def natOfDigits (ds : List Char) : Nat := ds.foldl (fun a c => a * 10 + digVal c) 0

/-- Text that cannot extend a rendered number: empty, or headed by a
character that is neither a digit nor a decimal point (every JSON
delimiter and whitespace character qualifies). -/
def numSafe : List Char → Bool
  | [] => true
  | c :: _ => !(isDig c || c == '.')

/-- Undo a simple JSON escape. -/
def unescChar : Char → Option Char
  | 'n' => some '\n'
  | 't' => some '\t'
  | 'r' => some '\r'
  | 'b' => some (Char.ofNat 8)
  | 'f' => some (Char.ofNat 12)
  | '"' => some '"'
  | '\\' => some '\\'
  | '/' => some '/'
  | _ => none

/-- Read a string body after the opening quote (`\uXXXX` escapes are not
needed for the ASCII strings the round-trip theorems cover). -/
def readStrGo (acc : List Char) : List Char → Option (String × List Char)
  | '"' :: r => some (⟨acc.reverse⟩, r)
  | '\\' :: e :: r =>
    match unescChar e with
    | some c => readStrGo (c :: acc) r
    | none => none
  | c :: r => readStrGo (c :: acc) r
  | [] => none

/-- Strip a leading minus sign. -/
def splitSign : List Char → Bool × List Char
  | '-' :: r => (true, r)
  | cs => (false, cs)

/-- Strip a leading decimal point. -/
def splitDot : List Char → Option (List Char)
  | '.' :: r => some r
  | _ => none

/-- Read a number: optional sign, digits, optional fraction. An integer
literal reads as `.int`, one with a fraction as `.float`. -/
def readNum (cs : List Char) : Option (Value × List Char) :=
  let (neg, cs1) := splitSign cs
  let (ds, cs2) := grabDigits cs1
  match ds with
  | [] => none
  | _ :: _ =>
    match splitDot cs2 with
    | some r =>
      let (fs, cs3) := grabDigits r
      match fs with
      | [] => none
      | _ :: _ =>
        let q : Rat := (natOfDigits ds : Rat) + (natOfDigits fs : Rat) / (10 : Rat) ^ fs.length
        some (.float (if neg then -q else q), cs3)
    | none =>
      let n : Int := (natOfDigits ds : Int)
      some (.int (if neg then -n else n), cs2)

mutual
/-- Read one JSON value (fuel-bounded). -/
def readVal : Nat → List Char → Option (Value × List Char)
  | 0, _ => none
  | fuel + 1, cs =>
    match dropWs cs with
    | '{' :: r =>
      match dropWs r with
      | '}' :: r' => some (.dict [], r')
      | r' =>
        match readFields fuel r' with
        | some (ms, r'') => some (.dict ms, r'')
        | none => none
    | '[' :: r =>
      match dropWs r with
      | ']' :: r' => some (.list [], r')
      | r' =>
        match readItems fuel r' with
        | some (vs, r'') => some (.list vs, r'')
        | none => none
    | '"' :: r =>
      match readStrGo [] r with
      | some (s, r') => some (.str s, r')
      | none => none
    | 'n' :: 'u' :: 'l' :: 'l' :: r => some (.null, r)
    | cs' => readNum cs'
/-- Read one-or-more array elements and the closing bracket. -/
def readItems : Nat → List Char → Option (List Value × List Char)
  | 0, _ => none
  | fuel + 1, cs =>
    match readVal fuel cs with
    | none => none
    | some (v, r) =>
      match dropWs r with
      | ',' :: r' =>
        match readItems fuel r' with
        | some (vs, r'') => some (v :: vs, r'')
        | none => none
      | ']' :: r' => some ([v], r')
      | _ => none
/-- Read one-or-more object members and the closing brace. -/
def readFields : Nat → List Char → Option (List (String × Value) × List Char)
  | 0, _ => none
  | fuel + 1, cs =>
    match dropWs cs with
    | '"' :: r =>
      match readStrGo [] r with
      | none => none
      | some (k, r1) =>
        match dropWs r1 with
        | ':' :: r2 =>
          match readVal fuel r2 with
          | none => none
          | some (v, r3) =>
            match dropWs r3 with
            | ',' :: r4 =>
              match readFields fuel r4 with
              | some (ms, r5) => some ((k, v) :: ms, r5)
              | none => none
            | '}' :: r4 => some ([(k, v)], r4)
            | _ => none
        | _ => none
    | _ => none
end

/-- Parse a complete JSON document (no trailing non-whitespace). -/
def parseJson (s : String) : Option Value :=
  match readVal (s.data.length + 1) s.data with
  | some (v, r) => if dropWs r = [] then some v else none
  | none => none

/-- Rebuild a `StudentVariant` from its parsed JSON record. -/
def variantOfJson : Value → Option StudentVariant
  | .dict [("student_id", .str sid), ("variant_seed", .int n),
           ("group_id", gj), ("parameters", .dict ps)] =>
    if 0 ≤ n then
      match gj with
      | .null => some ⟨sid, n.toNat, none, ps⟩
      | .int g => some ⟨sid, n.toNat, some g, ps⟩
      | _ => none
    else none
  | _ => none

/-! ## Decidable side conditions used by the theorems -/

/-- The placeholder pattern text `"{name}"`. -/
def patOf (n : String) : List Char := '{' :: (n.data ++ ['}'])

/-- No brace characters. -/
def braceFreeB (cs : List Char) : Bool := cs.all (fun c => c != '{' && c != '}')

/-- `pat` (nonempty) does not occur as a contiguous substring. -/
def noOccB (pat : List Char) : List Char → Bool
  | [] => true
  | c :: cs => !(pat.isPrefixOf (c :: cs)) && noOccB pat cs

/-- Every `'{'` is followed by some `'}'` later in the text. -/
def closedB : List Char → Bool
  | [] => true
  | c :: cs => (c != '{' || cs.contains '}') && closedB cs

/-- Template chunks are well-formed: literals and names are brace-free. -/
def chunksOKB : List Chunk → Bool
  | [] => true
  | .lit cs :: r => braceFreeB cs && chunksOKB r
  | .hole n :: r => braceFreeB n.data && chunksOKB r

/-- Parameter names are brace-free and no formatted value re-introduces
placeholder text: each value text is closed and contains no `"{name}"`
occurrence for any parameter name. -/
def valsOKB (params : List (String × Value)) : Bool :=
  params.all (fun p =>
    braceFreeB p.1.data && closedB (valueToStr p.2) &&
    params.all (fun q => noOccB (patOf q.1) (valueToStr p.2)))

/-- Characters the JSON escape model round-trips exactly: printable ASCII
plus the three simple-escaped controls. -/
def okChar (c : Char) : Bool :=
  (32 ≤ c.toNat && c.toNat < 127) || c = '\n' || c = '\t' || c = '\r'

/-- A string of round-trippable characters. -/
def okStrB (s : String) : Bool := s.data.all okChar

/-- A value the JSON codec round-trips exactly: strings (and dict keys)
made of round-trippable characters, floats decimal. -/
inductive OkVP : Value → Prop where
  | null : OkVP .null
  | int (n : Int) : OkVP (.int n)
  | float (q : Rat) : ratDecB q = true → OkVP (.float q)
  | str (s : String) : okStrB s = true → OkVP (.str s)
  | list (vs : List Value) : (∀ v ∈ vs, OkVP v) → OkVP (.list vs)
  | dict (kvs : List (String × Value)) :
      (∀ kv ∈ kvs, okStrB kv.1 = true) → (∀ kv ∈ kvs, OkVP kv.2) →
      OkVP (.dict kvs)

mutual
/-- Fuel sufficient for `readVal` to read this value. -/
def needF : Value → Nat
  | .null => 1
  | .int _ => 1
  | .float _ => 1
  | .str _ => 1
  | .list [] => 1
  | .list (v :: vs) => 1 + needItemsF v vs
  | .dict [] => 1
  | .dict (kv :: kvs) => 1 + needFieldsF kv kvs
termination_by v => sizeOf v
decreasing_by all_goals (simp_wf <;> omega)
/-- Fuel sufficient for `readItems` on a first element and the rest. -/
def needItemsF : Value → List Value → Nat
  | v, [] => 1 + needF v
  | v, w :: ws => 1 + max (needF v) (needItemsF w ws)
termination_by v vs => sizeOf v + sizeOf vs
decreasing_by all_goals (simp_wf <;> omega)
/-- Fuel sufficient for `readFields` on a first member and the rest. -/
def needFieldsF : String × Value → List (String × Value) → Nat
  | (_, v), [] => 1 + needF v
  | (_, v), m :: ms => 1 + max (needF v) (needFieldsF m ms)
termination_by kv ms => sizeOf kv + sizeOf ms
decreasing_by all_goals (simp_wf <;> omega)
end

/-- Did this computation succeed? -/
def exOk {ε α : Type} : Except ε α → Bool
  | .ok _ => true
  | .error _ => false

/-- A generator that never raises. -/
def GenTotal {σ : Type} (g : PGen σ) : Prop := ∀ s gid, exOk (g s gid) = true

/-- A generator whose result ignores the group id. -/
def GenGidFree {σ : Type} (g : PGen σ) : Prop := ∀ s g1 g2, g s g1 = g s g2

/-- Every generator in the table is total and group-id-free. -/
def GoodTable {σ : Type} (t : List (String × PGen σ)) : Prop :=
  ∀ p ∈ t, GenTotal p.2 ∧ GenGidFree p.2

/-- Well-formed optional `locations` parameter: absent, or a nonempty list. -/
def locsOKB (ps : List (String × Value)) : Bool :=
  match ps.lookup "locations" with
  | none => true
  | some (.list (_ :: _)) => true
  | some _ => false

/-- Well-formed optional `depth_range` parameter: absent, or a dict with
integer `min ≤ max`. -/
def depthOKB (ps : List (String × Value)) : Bool :=
  match ps.lookup "depth_range" with
  | none => true
  | some (.dict d) =>
    match d.lookup "min", d.lookup "max" with
    | some (.int a), some (.int b) => decide (a ≤ b)
    | _, _ => false
  | some _ => false

/-- No occurrence of `pat` starts inside `a`, whatever text follows `a`
(the invariant that makes `str.replace` skip over a literal chunk). -/
def SafeL (pat a : List Char) : Prop :=
  ∀ x y b, a = x ++ y → y ≠ [] → pat.isPrefixOf (y ++ b) = false

/-- All-whitespace text. -/
def wsOnly (cs : List Char) : Bool := cs.all iswsp

/-- Characters that can begin a rendered JSON value. -/
def goodHead (c : Char) : Bool :=
  c == 'n' || c == '-' || isDig c || c == '"' || c == '[' || c == '{'

/-- A concrete degenerate random source, used to instantiate witnesses. -/
def unitOps : RandomOps Unit where
  init _ := ()
  randint a _ _ := (a, ())
  uniform a _ _ := (a, ())
  pick _ _ := (0, ())
  sampleIdx _ _ _ := ([], ())
  rand _ := (0, ())

/-! # Theorems

Helper lemmas first, then one theorem per claim (with witness or
counterexample theorems where required). -/

theorem foldl_be (bs : List Nat) (a : Nat) :
    bs.foldl (fun x b => x * 256 + b) a = a * 256 ^ bs.length + beVal bs := by
  induction bs generalizing a with
  | nil => simp [beVal]
  | cons b t ih =>
    simp only [List.foldl_cons, ih, beVal, List.length_cons, pow_succ]
    ring

theorem fromBytesBE_eq_beVal (bs : List Nat) : fromBytesBE bs = beVal bs := by
  simp [fromBytesBE, foldl_be]

theorem beVal_lt (bs : List Nat) (h : ∀ b ∈ bs, b < 256) :
    beVal bs < 256 ^ bs.length := by
  induction bs with
  | nil => simp [beVal]
  | cons b t ih =>
    have hb : b < 256 := h b (List.mem_cons_self b t)
    have ht : beVal t < 256 ^ t.length := ih (fun x hx => h x (List.mem_cons_of_mem b hx))
    have h1 : b * 256 ^ t.length + beVal t < (b + 1) * 256 ^ t.length := by
      have := Nat.add_lt_add_left ht (b * 256 ^ t.length)
      calc b * 256 ^ t.length + beVal t
          < b * 256 ^ t.length + 256 ^ t.length := this
        _ = (b + 1) * 256 ^ t.length := by ring
    have h2 : (b + 1) * 256 ^ t.length ≤ 256 * 256 ^ t.length :=
      Nat.mul_le_mul_right _ (by omega)
    simp only [beVal, List.length_cons, pow_succ]
    calc b * 256 ^ t.length + beVal t < (b + 1) * 256 ^ t.length := h1
      _ ≤ 256 ^ t.length * 256 := by omega
      _ = 256 ^ t.length * 256 := rfl

theorem toBytesBE_lt (len x : Nat) : ∀ b ∈ toBytesBE len x, b < 256 := by
  intro b hb
  simp only [toBytesBE, List.mem_map, List.mem_range] at hb
  obtain ⟨i, _, rfl⟩ := hb
  exact Nat.mod_lt _ (by omega)

theorem sha256_bytes_lt (m : List Nat) : ∀ b ∈ sha256 m, b < 256 := by
  intro b hb
  simp only [sha256, List.mem_flatten, List.mem_map] at hb
  obtain ⟨l, ⟨w, _, rfl⟩, hbl⟩ := hb
  exact toBytesBE_lt 4 w b hbl

/-- C1: `compute_seed(assignment_id, seed_salt, student_id)` equals the first
8 bytes of the SHA-256 digest of the UTF-8 encoding of
`"{assignment_id}:{seed_salt}:{student_id}"` interpreted as a big-endian
unsigned integer (the specification's own wording, `compute_seed_spec`),
and the result fits an unsigned 64-bit integer. It is a total,
side-effect-free Lean function of the three strings. -/
theorem c1_seed_first8_bigendian (assignment_id seed_salt student_id : String) :
    compute_seed assignment_id seed_salt student_id
      = compute_seed_spec assignment_id seed_salt student_id ∧
    compute_seed assignment_id seed_salt student_id < 2 ^ 64 := by
  constructor
  · simp [compute_seed, compute_seed_spec, fromBytesBE_eq_beVal]
  · rw [compute_seed, fromBytesBE_eq_beVal]
    set digest := sha256 (utf8Str (assignment_id ++ ":" ++ seed_salt ++ ":" ++ student_id)) with hd
    have hbytes : ∀ b ∈ digest.take 8, b < 256 := fun b hb =>
      sha256_bytes_lt _ b (List.mem_of_mem_take hb)
    have hlen : (digest.take 8).length ≤ 8 := by
      simp [List.length_take]
    calc beVal (digest.take 8) < 256 ^ (digest.take 8).length := beVal_lt _ hbytes
      _ ≤ 256 ^ 8 := Nat.pow_le_pow_right (by omega) hlen
      _ = 2 ^ 64 := by norm_num

/-- C9: for every seed and every `num_groups = g ≥ 1`, `compute_group`
(which the code defines as `seed % num_groups`) succeeds and returns a
value in `[0, g)`. -/
theorem c9_group_range (seed g : Int) (hg : 1 ≤ g) :
    compute_group seed g = .ok (Int.fmod seed g) ∧
    0 ≤ Int.fmod seed g ∧ Int.fmod seed g < g := by
  refine ⟨?_, Int.fmod_nonneg' _ (by omega), Int.fmod_lt_of_pos _ (by omega)⟩
  rw [compute_group, if_neg (by omega)]

/-- Witness for C9 at seed 7, three groups. -/
theorem c9_group_range_witness :
    compute_group 7 3 = .ok (Int.fmod 7 3) ∧
    0 ≤ Int.fmod 7 3 ∧ Int.fmod 7 3 < 3 :=
  c9_group_range 7 3 (by decide)

/-- C2 counterexample: a configuration with `num_groups = -3 ≤ 0` and the
`grouped` strategy, for which `generate_variant` succeeds (no
InvalidConfiguration error, no error at all): the source has no
`num_groups` validation. -/
theorem c2_counterexample :
    exOk (generate_variant unitOps
      { assignment_id := "lab01", variant_strategy := "grouped",
        num_groups := -3, seed_salt := "GGY3601_2025" } "alice"
      ([] : List (String × PGen Unit))) = true := by
  decide

/-- C2 amended: there is no eager `num_groups` validation. With a
non-`unique` strategy, `num_groups = 0` makes generation fail with the
`ZeroDivisionError` raised by `seed % num_groups` (only at group
computation, after the seed is computed), while `num_groups < 0` raises
nothing: generation succeeds, with a (nonpositive) `group_id` equal to
`seed % num_groups` in Python's floor-mod semantics. -/
theorem c2_no_invalid_configuration {σ : Type} (ops : RandomOps σ)
    (cfg : VariantConfig) (sid : String) (table : List (String × PGen σ)) :
    (cfg.num_groups = 0 → cfg.variant_strategy ≠ "unique" →
      generate_variant ops cfg sid table = .error .zeroDivision) ∧
    (cfg.num_groups < 0 → cfg.variant_strategy ≠ "unique" →
      generate_variant ops cfg sid [] =
        .ok { student_id := sid,
              variant_seed := compute_seed cfg.assignment_id cfg.seed_salt sid,
              group_id := some (Int.fmod
                (compute_seed cfg.assignment_id cfg.seed_salt sid) cfg.num_groups),
              parameters := [] }) := by
  constructor
  · intro h0 hs
    simp [generate_variant, compute_group, h0, hs, Except.map]
  · intro hneg hs
    rw [generate_variant]
    rw [if_pos hs, compute_group, if_neg (by omega)]
    simp [genParams, Except.map]

/-- Witness for C2 amended, both conjuncts at concrete configurations. -/
theorem c2_no_invalid_configuration_witness :
    (generate_variant unitOps
      { assignment_id := "lab01", variant_strategy := "grouped",
        num_groups := 0, seed_salt := "GGY3601_2025" } "alice"
      ([] : List (String × PGen Unit)) = .error .zeroDivision) ∧
    (generate_variant unitOps
      { assignment_id := "lab01", variant_strategy := "grouped",
        num_groups := -3, seed_salt := "GGY3601_2025" } "alice"
      ([] : List (String × PGen Unit)) =
      .ok { student_id := "alice",
            variant_seed := compute_seed "lab01" "GGY3601_2025" "alice",
            group_id := some (Int.fmod (compute_seed "lab01" "GGY3601_2025" "alice") (-3)),
            parameters := [] }) :=
  ⟨(c2_no_invalid_configuration unitOps _ "alice" []).1 rfl (by decide),
   (c2_no_invalid_configuration unitOps _ "alice" []).2 (by decide) (by decide)⟩

/-- C4: a two-student batch is exactly the two independent
`generate_variant` results in input order (each call re-seeds its own
random source from its own student id, so no pseudo-random state is
shared across students). -/
theorem c4_batch_pair {σ : Type} (ops : RandomOps σ) (cfg : VariantConfig)
    (s1 s2 : String) (table : List (String × PGen σ)) :
    generate_batch ops cfg [s1, s2] table =
      (generate_variant ops cfg s1 table).bind (fun v1 =>
        (generate_variant ops cfg s2 table).map (fun v2 => [v1, v2])) := by
  rw [generate_batch, generate_batch, generate_batch]
  cases generate_variant ops cfg s1 table <;>
    cases generate_variant ops cfg s2 table <;>
    rfl

theorem exOk_exists {ε α : Type} {x : Except ε α} (h : exOk x = true) :
    ∃ a, x = .ok a := by
  cases x with
  | ok a => exact ⟨a, rfl⟩
  | error e => simp [exOk] at h

theorem genParams_reach_error {σ : Type} (e : PyErr) (n : String) (gen : PGen σ)
    (t2 : List (String × PGen σ)) (hgen : ∀ s gid, gen s gid = .error e) :
    ∀ (t1 : List (String × PGen σ)), (∀ p ∈ t1, GenTotal p.2) →
    ∀ gid s, genParams (t1 ++ (n, gen) :: t2) gid s = .error e := by
  intro t1
  induction t1 with
  | nil =>
    intro _ gid s
    simp [genParams, hgen s gid]
  | cons p t ih =>
    intro hok gid s
    obtain ⟨m, g⟩ := p
    have hp : GenTotal g := hok (m, g) (List.mem_cons_self (m, g) t)
    obtain ⟨⟨v, s'⟩, hv⟩ := exOk_exists (hp s gid)
    simp only [List.cons_append, genParams, hv, List.append_eq]
    rw [ih (fun q hq => hok q (List.mem_cons_of_mem _ hq)) gid s']

/-- C3 amended: when a parameter-generator function raises (after any run
of earlier non-raising generators), the whole `generate_variant` call
fails with the original exception propagated unmodified -- no partial
`StudentVariant` is returned, and nothing attaches the parameter name or
the assignment id to the error. -/
theorem c3_generator_error_propagates {σ : Type} (ops : RandomOps σ)
    (cfg : VariantConfig) (sid : String) (t1 t2 : List (String × PGen σ))
    (n : String) (gen : PGen σ) (e : PyErr)
    (hok : ∀ p ∈ t1, GenTotal p.2)
    (hgen : ∀ s gid, gen s gid = .error e)
    (hgrp : cfg.variant_strategy = "unique" ∨ cfg.num_groups ≠ 0) :
    generate_variant ops cfg sid (t1 ++ (n, gen) :: t2) = .error e := by
  have hrw := genParams_reach_error e n gen t2 hgen t1 hok
  rw [generate_variant]
  rcases hgrp with hu | hg
  · rw [if_neg (by simp [hu])]
    simp [hrw]
  · by_cases hs : cfg.variant_strategy = "unique"
    · rw [if_neg (by simp [hs])]
      simp [hrw]
    · rw [if_pos hs, compute_group, if_neg hg]
      simp [Except.map, hrw]

/-- Witness for C3 amended: a generator raising `userErr "boom"` as the
only table entry, grouped strategy. -/
theorem c3_generator_error_propagates_witness :
    generate_variant unitOps
      { assignment_id := "lab01", variant_strategy := "grouped",
        num_groups := 10, seed_salt := "GGY3601_2025" } "alice"
      ([] ++ ("param_one", (fun _ _ => .error (.userErr "boom") : PGen Unit)) :: []) =
      .error (.userErr "boom") :=
  c3_generator_error_propagates unitOps _ "alice" [] [] "param_one" _ _
    (by intro p hp; simp at hp) (fun _ _ => rfl) (Or.inr (by decide))

/-- C3 counterexample: the claim says the surfaced error has the offending
parameter name (and the assignment id) attached; in fact the error is
propagated verbatim: here the generator for `param_one` under assignment
`lab01` raises `userErr "boom"`, and the surfaced error text contains
neither `"param_one"` nor `"lab01"`. -/
theorem c3_counterexample :
    generate_variant unitOps
      { assignment_id := "lab01", variant_strategy := "grouped",
        num_groups := 10, seed_salt := "GGY3601_2025" } "alice"
      [("param_one", (fun _ _ => .error (.userErr "boom") : PGen Unit))] =
      .error (.userErr "boom") ∧
    noOccB "param_one".data "boom".data = true ∧
    noOccB "lab01".data "boom".data = true :=
  ⟨rfl, by decide, by decide⟩
theorem goodtable_lab01 {σ : Type} (ops : RandomOps σ) :
    GoodTable (create_lab01_generators ops) := by
  intro p hp
  simp only [create_lab01_generators, List.mem_cons, List.not_mem_nil, or_false] at hp
  rcases hp with rfl | rfl | rfl | rfl | rfl
  all_goals exact ⟨fun _ _ => rfl, fun _ _ _ => rfl⟩

theorem goodtable_lab02 {σ : Type} (ops : RandomOps σ) :
    GoodTable (create_lab02_generators ops) := by
  intro p hp
  simp only [create_lab02_generators, List.mem_cons, List.not_mem_nil, or_false] at hp
  rcases hp with rfl | rfl | rfl | rfl
  all_goals exact ⟨fun _ _ => rfl, fun _ _ _ => rfl⟩

theorem goodtable_lab03 {σ : Type} (ops : RandomOps σ) (hlaw : LawfulRandom ops) :
    GoodTable (create_lab03_generators ops) := by
  intro p hp
  simp only [create_lab03_generators, List.mem_cons, List.not_mem_nil, or_false] at hp
  rcases hp with rfl | rfl | rfl
  · exact ⟨fun _ _ => rfl, fun _ _ _ => rfl⟩
  · refine ⟨?_, fun _ _ _ => rfl⟩
    intro s gid
    obtain ⟨h3, h5⟩ := hlaw 3 5 s (by decide)
    simp only [pyRandint, if_neg (by decide : ¬ (5 : Int) < 3)]
    have hk : (ops.randint 3 5 s).1.toNat ≤ 7 := by omega
    simp [pySample, if_pos, hk, exOk, Except.map]
  · exact ⟨fun _ _ => rfl, fun _ _ _ => rfl⟩

theorem goodtable_lab04 {σ : Type} (ops : RandomOps σ) (hlaw : LawfulRandom ops) :
    GoodTable (create_lab04_generators ops) := by
  intro p hp
  simp only [create_lab04_generators, List.mem_cons, List.not_mem_nil, or_false] at hp
  rcases hp with rfl | rfl | rfl | rfl
  · exact ⟨fun _ _ => rfl, fun _ _ _ => rfl⟩
  · refine ⟨?_, fun _ _ _ => rfl⟩
    intro s gid
    obtain ⟨h2, h4⟩ := hlaw 2 4 s (by decide)
    simp only [pyRandint, if_neg (by decide : ¬ (4 : Int) < 2)]
    have hk : (ops.randint 2 4 s).1.toNat ≤ 5 := by omega
    simp [pySample, if_pos, hk, exOk, Except.map]
  · exact ⟨fun _ _ => rfl, fun _ _ _ => rfl⟩
  · exact ⟨fun _ _ => rfl, fun _ _ _ => rfl⟩

theorem goodtable_lab05 {σ : Type} (ops : RandomOps σ) :
    GoodTable (create_lab05_generators ops) := by
  intro p hp
  simp only [create_lab05_generators, List.mem_cons, List.not_mem_nil, or_false] at hp
  rcases hp with rfl | rfl | rfl | rfl
  all_goals exact ⟨fun _ _ => rfl, fun _ _ _ => rfl⟩

theorem goodtable_lab06 {σ : Type} (ops : RandomOps σ) :
    GoodTable (create_lab06_generators ops) := by
  intro p hp
  simp only [create_lab06_generators, List.mem_cons, List.not_mem_nil, or_false] at hp
  rcases hp with rfl | rfl | rfl | rfl
  all_goals exact ⟨fun _ _ => rfl, fun _ _ _ => rfl⟩

theorem goodtable_ca01 {σ : Type} (ops : RandomOps σ) :
    GoodTable (create_ca01_generators ops) := by
  intro p hp
  simp only [create_ca01_generators, List.mem_cons, List.not_mem_nil, or_false] at hp
  rcases hp with rfl | rfl | rfl | rfl | rfl
  all_goals exact ⟨fun _ _ => rfl, fun _ _ _ => rfl⟩

theorem goodtable_ca02 {σ : Type} (ops : RandomOps σ) :
    GoodTable (create_ca02_generators ops) := by
  intro p hp
  simp only [create_ca02_generators, List.mem_cons, List.not_mem_nil, or_false] at hp
  rcases hp with rfl | rfl | rfl | rfl | rfl
  all_goals exact ⟨fun _ _ => rfl, fun _ _ _ => rfl⟩

theorem goodtable_miniproject {σ : Type} (ops : RandomOps σ) :
    GoodTable (create_miniproject_generators ops) := by
  intro p hp
  simp only [create_miniproject_generators, List.mem_cons, List.not_mem_nil, or_false] at hp
  rcases hp with rfl | rfl | rfl | rfl | rfl | rfl
  all_goals exact ⟨fun _ _ => rfl, fun _ _ _ => rfl⟩

theorem genParams_gidfree_ok {σ : Type} (t : List (String × PGen σ))
    (hgood : GoodTable t) : ∀ gid1 gid2 s,
    genParams t gid1 s = genParams t gid2 s ∧ exOk (genParams t gid1 s) = true := by
  induction t with
  | nil => intro gid1 gid2 s; exact ⟨rfl, rfl⟩
  | cons p rest ih =>
    intro gid1 gid2 s
    obtain ⟨m, g⟩ := p
    have hg := hgood (m, g) (List.mem_cons_self (m, g) rest)
    have hrest : GoodTable rest := fun q hq => hgood q (List.mem_cons_of_mem _ hq)
    obtain ⟨⟨v, s'⟩, hv1⟩ := exOk_exists (hg.1 s gid1)
    have hv1' : g s gid1 = .ok (v, s') := hv1
    have hv2 : g s gid2 = .ok (v, s') := (hg.2 s gid2 gid1).trans hv1'
    obtain ⟨heq, hok⟩ := ih hrest gid1 gid2 s'
    obtain ⟨⟨ps, s''⟩, hps⟩ := exOk_exists hok
    have hps2 : genParams rest gid2 s' = .ok (ps, s'') := by rw [← heq]; exact hps
    simp only [genParams, hv1', hv2, hps, hps2]
    exact ⟨trivial, rfl⟩

/-- C10: for every built-in generator table, the variant seed and the
parameters mapping of `generate_variant` are identical across strategies
and group counts (`≥ 1`): the seed depends only on assignment id, salt
and student id, and every bundled generator ignores its group id, so the
strategy and group count influence only the `group_id` field.
(`LawfulRandom` supplies the `randint` range guarantee two bundled
sample-size draws rely on.) -/
theorem c10_strategy_independent {σ : Type} (ops : RandomOps σ)
    (hlaw : LawfulRandom ops) (tname : String) (tbl : List (String × PGen σ))
    (htbl : (tname, tbl) ∈ ASSIGNMENT_GENERATORS ops)
    (aid salt sid strat1 strat2 : String) (g1 g2 : Int)
    (hg1 : 1 ≤ g1) (hg2 : 1 ≤ g2) :
    ∃ v1 v2,
      generate_variant ops ⟨aid, strat1, g1, salt⟩ sid tbl = .ok v1 ∧
      generate_variant ops ⟨aid, strat2, g2, salt⟩ sid tbl = .ok v2 ∧
      v1.variant_seed = v2.variant_seed ∧ v1.parameters = v2.parameters := by
  have hgood : GoodTable tbl := by
    simp only [ASSIGNMENT_GENERATORS, List.mem_cons, List.not_mem_nil, or_false,
      Prod.mk.injEq] at htbl
    rcases htbl with h | h | h | h | h | h | h | h | h <;> obtain ⟨-, rfl⟩ := h
    · exact goodtable_lab01 ops
    · exact goodtable_lab02 ops
    · exact goodtable_lab03 ops hlaw
    · exact goodtable_lab04 ops hlaw
    · exact goodtable_lab05 ops
    · exact goodtable_lab06 ops
    · exact goodtable_ca01 ops
    · exact goodtable_ca02 ops
    · exact goodtable_miniproject ops
  set seed := compute_seed aid salt sid with hseed
  have hgp := genParams_gidfree_ok tbl hgood
  obtain ⟨⟨ps, st⟩, hnone⟩ := exOk_exists (hgp none none (ops.init seed)).2
  have hall : ∀ gid, genParams tbl gid (ops.init seed) = .ok (ps, st) := fun gid => by
    rw [(hgp gid none (ops.init seed)).1]
    exact hnone
  have hrun : ∀ (strat : String) (g : Int), 1 ≤ g →
      ∃ gid, generate_variant ops ⟨aid, strat, g, salt⟩ sid tbl =
        .ok ⟨sid, seed, gid, ps⟩ := by
    intro strat g hg
    by_cases hs : strat = "unique"
    · refine ⟨none, ?_⟩
      rw [generate_variant]
      rw [if_neg (by simp [hs])]
      simp [hall none, ← hseed]
    · refine ⟨some (Int.fmod (seed : Int) g), ?_⟩
      rw [generate_variant]
      rw [if_pos (by simp [hs] : (⟨aid, strat, g, salt⟩ : VariantConfig).variant_strategy ≠ "unique")]
      rw [compute_group,
        if_neg (show ¬ (⟨aid, strat, g, salt⟩ : VariantConfig).num_groups = 0 by
          show ¬ g = 0; omega)]
      simp [Except.map, hall, ← hseed]
  obtain ⟨gid1, h1⟩ := hrun strat1 g1 hg1
  obtain ⟨gid2, h2⟩ := hrun strat2 g2 hg2
  exact ⟨_, _, h1, h2, rfl, rfl⟩

/-- Witness for C10: `lab01` table, `unique` with 10 groups against
`grouped` with 3 groups, student `alice`. -/
theorem c10_strategy_independent_witness :
    ∃ v1 v2,
      generate_variant unitOps ⟨"lab01", "unique", 10, "GGY3601_2025"⟩ "alice"
        (create_lab01_generators unitOps) = .ok v1 ∧
      generate_variant unitOps ⟨"lab01", "grouped", 3, "GGY3601_2025"⟩ "alice"
        (create_lab01_generators unitOps) = .ok v2 ∧
      v1.variant_seed = v2.variant_seed ∧ v1.parameters = v2.parameters :=
  c10_strategy_independent unitOps (fun a b s h => ⟨le_refl a, h⟩)
    "lab01" (create_lab01_generators unitOps) (by simp [ASSIGNMENT_GENERATORS])
    "lab01" "GGY3601_2025" "alice" "unique" "grouped" 10 3 (by decide) (by decide)

/-- C8: whenever the configured strategy is `"unique"`, a produced
`StudentVariant` has `group_id = none`, for every student, assignment and
table; with any other strategy (and `num_groups ≥ 1`, as the data model
requires) the produced variant's `group_id` is present and lies in
`[0, num_groups)`. -/
theorem c8_unique_no_group {σ : Type} (ops : RandomOps σ) (cfg : VariantConfig)
    (sid : String) (table : List (String × PGen σ)) (v : StudentVariant)
    (hok : generate_variant ops cfg sid table = .ok v) :
    (cfg.variant_strategy = "unique" → v.group_id = none) ∧
    (cfg.variant_strategy ≠ "unique" → 1 ≤ cfg.num_groups →
      ∃ g, v.group_id = some g ∧ 0 ≤ g ∧ g < cfg.num_groups) := by
  constructor
  · intro hu
    simp only [generate_variant, if_neg (show ¬ cfg.variant_strategy ≠ "unique" by simp [hu])]
      at hok
    split at hok
    · exact Except.noConfusion hok
    · simp only [Except.ok.injEq] at hok
      rw [← hok]
  · intro hs hg
    simp only [generate_variant, if_pos hs, compute_group,
      if_neg (show ¬ cfg.num_groups = 0 by omega), Except.map] at hok
    split at hok
    · exact Except.noConfusion hok
    · simp only [Except.ok.injEq] at hok
      refine ⟨Int.fmod (compute_seed cfg.assignment_id cfg.seed_salt sid) cfg.num_groups,
        ?_, Int.fmod_nonneg' _ (by omega), Int.fmod_lt_of_pos _ (by omega)⟩
      rw [← hok]

/-- Witness for C8: both conjuncts at concrete runs of the empty table
(`unique` with 10 groups; `grouped` with 10 groups). -/
theorem c8_unique_no_group_witness :
    (StudentVariant.group_id
      ⟨"alice", compute_seed "lab01" "GGY3601_2025" "alice", none, []⟩ = none) ∧
    ∃ g, (StudentVariant.group_id
      ⟨"alice", compute_seed "lab01" "GGY3601_2025" "alice",
       some (Int.fmod (compute_seed "lab01" "GGY3601_2025" "alice") 10), []⟩ = some g) ∧
      0 ≤ g ∧ g < 10 :=
  ⟨(c8_unique_no_group unitOps ⟨"lab01", "unique", 10, "GGY3601_2025"⟩ "alice" [] _ rfl).1 rfl,
   (c8_unique_no_group unitOps ⟨"lab01", "grouped", 10, "GGY3601_2025"⟩ "alice" [] _ rfl).2
     (by decide) (by decide)⟩

theorem samplesRow_ok {σ : Type} (ops : RandomOps σ) (x : Value) (xs : List Value)
    (d : List (String × Value)) (a b : Int)
    (hmin : d.lookup "min" = some (.int a)) (hmax : d.lookup "max" = some (.int b))
    (hab : a ≤ b) :
    ∀ i s, ∃ row s', samplesRow ops (.list (x :: xs)) (.dict d) i s = .ok (row, s') := by
  intro i s
  simp only [samplesRow, dictIndex, hmin, hmax, asInt, pyRandint,
    if_neg (show ¬ b < a by omega), pyChoice]
  exact ⟨_, _, rfl⟩

theorem samplesLoop_len {σ : Type} (ops : RandomOps σ) (locV depthV : Value)
    (hrow : ∀ i s, ∃ row s', samplesRow ops locV depthV i s = .ok (row, s')) :
    ∀ n i s, ∃ rows s', samplesLoop ops locV depthV n i s = .ok (rows, s') ∧
      rows.length = n := by
  intro n
  induction n with
  | zero => exact fun i s => ⟨[], s, rfl, rfl⟩
  | succ m ih =>
    intro i s
    obtain ⟨row, s', hr⟩ := hrow i s
    obtain ⟨rows, s'', hl, hlen⟩ := ih (i + 1) s'
    exact ⟨row :: rows, s'', by simp [samplesLoop, hr, hl], by simp [hlen]⟩

/-- C6: with `num_records = 50` in the parameters (and the optional
`locations`/`depth_range` parameters well-formed when present), the
Dataset Synthesizer produces, for each recognized sample-data assignment
type, a `samples.csv` with exactly one header row plus 50 data rows; for
an assignment type it does not recognize it writes no file and does not
fail. -/
theorem c6_sample_rowcount {σ : Type} (ops : RandomOps σ)
    (variant : StudentVariant) (atype : String) :
    ((atype = "lab04" ∨ atype = "lab05" ∨ atype = "ca01") →
      variant.parameters.lookup "num_records" = some (.int 50) →
      locsOKB variant.parameters = true →
      depthOKB variant.parameters = true →
      ∃ rows, generate_sample_data ops variant atype =
        .ok (some ("samples.csv", rows)) ∧ rows.length = 51) ∧
    (atype ≠ "lab04" → atype ≠ "lab05" → atype ≠ "ca01" → atype ≠ "ca02" →
      generate_sample_data ops variant atype = .ok none) := by
  constructor
  · intro htype hnum hlocs hdep
    rw [generate_sample_data, if_pos htype]
    have hrow : ∀ i s, ∃ row s',
        samplesRow ops (dictGet variant.parameters "locations"
            (.list [.str "Site-A", .str "Site-B"]))
          (dictGet variant.parameters "depth_range"
            (.dict [("min", .int 50), ("max", .int 500)])) i s = .ok (row, s') := by
      have hloc : ∃ x xs, dictGet variant.parameters "locations"
          (.list [.str "Site-A", .str "Site-B"]) = .list (x :: xs) := by
        rw [locsOKB] at hlocs
        rw [dictGet]
        split at hlocs
        · rename_i h; rw [h]; exact ⟨.str "Site-A", [.str "Site-B"], rfl⟩
        · rename_i v w ws h; rw [h]; exact ⟨w, ws, rfl⟩
        · exact absurd hlocs (by simp)
      obtain ⟨x, xs, hx⟩ := hloc
      rw [hx]
      rw [depthOKB] at hdep
      rw [dictGet]
      split at hdep
      · rename_i h
        rw [h]
        exact samplesRow_ok ops x xs _ 50 500 rfl rfl (by omega)
      · rename_i v d h
        rw [h]
        split at hdep
        · rename_i a b hmin hmax
          exact samplesRow_ok ops x xs d a b hmin hmax (by simpa using hdep)
        · exact absurd hdep (by simp)
      · exact absurd hdep (by simp)
    obtain ⟨rows, s', hl, hlen⟩ :=
      samplesLoop_len ops _ _ hrow ((50 : Int)).toNat 1 (ops.init variant.variant_seed)
    rw [dictGet, hnum]
    simp only [Option.getD_some, asInt, hl]
    exact ⟨_, rfl, by simp [hlen]⟩
  · intro h4 h5 hc1 hc2
    rw [generate_sample_data, if_neg (by simp [h4, h5, hc1]), if_neg (by simp [hc2])]

/-- Witness for C6: a variant whose parameters set only `num_records = 50`
(both defaults in force), recognized type `lab04`; and unrecognized type
`lab01`. -/
theorem c6_sample_rowcount_witness :
    (∃ rows, generate_sample_data unitOps
        ⟨"w", 0, none, [("num_records", .int 50)]⟩ "lab04" =
      .ok (some ("samples.csv", rows)) ∧ rows.length = 51) ∧
    generate_sample_data unitOps
        ⟨"w", 0, none, [("num_records", .int 50)]⟩ "lab01" = .ok none :=
  ⟨(c6_sample_rowcount unitOps ⟨"w", 0, none, [("num_records", .int 50)]⟩ "lab04").1
      (Or.inl rfl) rfl (by decide) (by decide),
   (c6_sample_rowcount unitOps ⟨"w", 0, none, [("num_records", .int 50)]⟩ "lab01").2
      (by decide) (by decide) (by decide) (by decide)⟩

theorem braceFreeB_mem {cs : List Char} (h : braceFreeB cs = true) {c : Char}
    (hc : c ∈ cs) : c ≠ '{' ∧ c ≠ '}' := by
  have := List.all_eq_true.mp h c hc
  simp only [bne_iff_ne, Bool.and_eq_true] at this
  exact this

theorem firstClose {y : List Char} (h : '}' ∈ y) :
    ∃ u t, y = u ++ '}' :: t ∧ '}' ∉ u := by
  induction y with
  | nil => cases h
  | cons c y' ih =>
    by_cases hc : c = '}'
    · exact ⟨[], y', by simp [hc], by simp⟩
    · have h' : '}' ∈ y' := by
        rcases List.mem_cons.mp h with h1 | h1
        · exact absurd h1.symm hc
        · exact h1
      obtain ⟨u, t, rfl, hu⟩ := ih h'
      refine ⟨c :: u, t, rfl, ?_⟩
      simp only [List.mem_cons, not_or]
      exact ⟨fun hh => hc hh.symm, hu⟩

theorem closedB_spec {a : List Char} (h : closedB a = true) :
    ∀ x y, a = x ++ '{' :: y → '}' ∈ y := by
  induction a with
  | nil => intro x y hxy; exact absurd hxy (by simp)
  | cons c a' ih =>
    rw [closedB, Bool.and_eq_true] at h
    intro x y hxy
    cases x with
    | nil =>
      simp only [List.nil_append, List.cons.injEq] at hxy
      obtain ⟨rfl, rfl⟩ := hxy
      rcases Bool.or_eq_true_iff.mp h.1 with hb | hb
      · simp at hb
      · exact List.elem_iff.mp hb
    | cons d x' =>
      simp only [List.cons_append, List.cons.injEq] at hxy
      exact ih h.2 x' y hxy.2

theorem noOccB_spec {pat a : List Char} (h : noOccB pat a = true) :
    ∀ x y, a = x ++ y → y = [] ∨ pat.isPrefixOf y = false := by
  induction a with
  | nil =>
    intro x y hxy
    left
    exact (List.append_eq_nil.mp hxy.symm).2
  | cons c a' ih =>
    rw [noOccB, Bool.and_eq_true, Bool.not_eq_true'] at h
    intro x y hxy
    cases x with
    | nil =>
      right
      simp only [List.nil_append] at hxy
      rw [← hxy]
      exact h.1
    | cons d x' =>
      simp only [List.cons_append, List.cons.injEq] at hxy
      exact ih h.2 x' y hxy.2

theorem nameEq {w u r : List Char} (hw : ∀ c ∈ w, c ≠ '{' ∧ c ≠ '}')
    (hu : '}' ∉ u) (hpre : (w ++ ['}']).isPrefixOf (u ++ '}' :: r) = true) :
    w = u := by
  induction w generalizing u with
  | nil =>
    cases u with
    | nil => rfl
    | cons d u' =>
      simp only [List.nil_append, List.cons_append, List.isPrefixOf_cons₂,
        Bool.and_eq_true, beq_iff_eq] at hpre
      exact absurd (hpre.1.symm ▸ List.mem_cons_self d u') (by
        intro hmem
        exact hu (hpre.1 ▸ hmem))
  | cons e w' ih =>
    cases u with
    | nil =>
      simp only [List.cons_append, List.nil_append, List.isPrefixOf_cons₂,
        Bool.and_eq_true, beq_iff_eq] at hpre
      exact absurd hpre.1 (hw e (List.mem_cons_self e w')).2
    | cons d u' =>
      simp only [List.cons_append, List.isPrefixOf_cons₂, Bool.and_eq_true,
        beq_iff_eq] at hpre
      have := ih (fun c hc => hw c (List.mem_cons_of_mem e hc))
        (fun hm => hu (List.mem_cons_of_mem d hm)) hpre.2
      rw [hpre.1, this]

theorem isPrefixOf_self_append (l r : List Char) : l.isPrefixOf (l ++ r) = true := by
  induction l with
  | nil => simp
  | cons c t ih => simp [List.isPrefixOf_cons₂, ih]

theorem safeL_of_braceFree {a : List Char} (h : braceFreeB a = true)
    (ps : List Char) : SafeL ('{' :: ps) a := by
  intro x y b hxy hy
  cases y with
  | nil => exact absurd rfl hy
  | cons c y' =>
    have hc : c ∈ a := hxy ▸ List.mem_append_right x (List.mem_cons_self c y')
    have := (braceFreeB_mem h hc).1
    simp only [List.cons_append, List.isPrefixOf_cons₂, Bool.and_eq_false_iff,
      beq_eq_false_iff_ne]
    exact Or.inl (fun hh => this hh.symm)

theorem safeL_of_closed_noOcc {w a : List Char}
    (hw : braceFreeB w = true) (hc : closedB a = true)
    (hn : noOccB ('{' :: (w ++ ['}'])) a = true) :
    SafeL ('{' :: (w ++ ['}'])) a := by
  intro x y b hxy hy
  by_contra hfalse
  have hpre : ('{' :: (w ++ ['}'])).isPrefixOf (y ++ b) = true := by
    cases hp : ('{' :: (w ++ ['}'])).isPrefixOf (y ++ b)
    · exact absurd hp hfalse
    · rfl
  cases y with
  | nil => exact absurd rfl hy
  | cons c y' =>
    have hcbrace : c = '{' := by
      simp only [List.cons_append, List.isPrefixOf_cons₂, Bool.and_eq_true,
        beq_iff_eq] at hpre
      exact hpre.1.symm
    subst hcbrace
    have hclose : '}' ∈ y' := closedB_spec hc x y' hxy
    obtain ⟨u, t, rfl, hu⟩ := firstClose hclose
    have hpre2 : (w ++ ['}']).isPrefixOf (u ++ '}' :: (t ++ b)) = true := by
      simp only [List.cons_append, List.isPrefixOf_cons₂, Bool.and_eq_true,
        beq_iff_eq, List.append_assoc, List.cons_append] at hpre ⊢
      exact hpre.2
    have hweq : w = u := nameEq (fun ch hch => braceFreeB_mem hw hch) hu hpre2
    subst hweq
    have hocc := noOccB_spec hn x ('{' :: (w ++ '}' :: t)) hxy
    rcases hocc with h0 | h0
    · exact absurd h0 (by simp)
    · have hself : ('{' :: (w ++ ['}'])).isPrefixOf ('{' :: (w ++ '}' :: t)) = true := by
        simp only [List.isPrefixOf_cons₂, beq_self_eq_true, Bool.true_and]
        have : w ++ '}' :: t = (w ++ ['}']) ++ t := by simp
        rw [this]
        exact isPrefixOf_self_append _ _
      rw [hself] at h0
      exact absurd h0 (by simp)

theorem replaceGo_congr (pat rep : List Char) :
    ∀ f1 f2 s, s.length ≤ f1 → s.length ≤ f2 →
      replaceGo pat rep f1 s = replaceGo pat rep f2 s := by
  intro f1
  induction f1 with
  | zero =>
    intro f2 s h1 h2
    have hs : s = [] := List.eq_nil_of_length_eq_zero (by omega)
    subst hs
    cases f2 <;> rfl
  | succ f1' ih =>
    intro f2 s h1 h2
    cases s with
    | nil => cases f2 <;> rfl
    | cons c cs =>
      cases f2 with
      | zero => simp at h2
      | succ f2' =>
        rw [replaceGo, replaceGo]
        simp only [List.length_cons] at h1 h2
        by_cases hp : pat.isPrefixOf (c :: cs) = true
        · rw [if_pos hp, if_pos hp]
          congr 1
          apply ih
          · simp only [List.length_drop]; omega
          · simp only [List.length_drop]; omega
        · rw [if_neg (by simpa using hp), if_neg (by simpa using hp)]
          congr 1
          exact ih f2' cs (by omega) (by omega)

theorem replaceL_nil (pat rep : List Char) : replaceL pat rep [] = [] := rfl

theorem replaceL_pos {pat : List Char} (rep : List Char) {c : Char} {cs : List Char}
    (h : pat.isPrefixOf (c :: cs) = true) :
    replaceL pat rep (c :: cs) = rep ++ replaceL pat rep (cs.drop (pat.length - 1)) := by
  rw [replaceL, replaceL]
  simp only [List.length_cons]
  rw [replaceGo, if_pos h]
  congr 1
  apply replaceGo_congr
  · simp only [List.length_drop]; omega
  · exact le_refl _

theorem replaceL_neg {pat : List Char} (rep : List Char) {c : Char} {cs : List Char}
    (h : pat.isPrefixOf (c :: cs) = false) :
    replaceL pat rep (c :: cs) = c :: replaceL pat rep cs := by
  rw [replaceL, replaceL]
  simp only [List.length_cons]
  rw [replaceGo, if_neg (by simp [h])]

theorem replaceL_append_safe {pat a : List Char} (rep : List Char) (hs : SafeL pat a) :
    ∀ b, replaceL pat rep (a ++ b) = a ++ replaceL pat rep b := by
  induction a with
  | nil => intro b; simp
  | cons c a' ih =>
    intro b
    have hnp : pat.isPrefixOf (c :: (a' ++ b)) = false := by
      have := hs [] (c :: a') b rfl (by simp)
      simpa using this
    rw [List.cons_append, replaceL_neg rep hnp]
    have hs' : SafeL pat a' := by
      intro x y bb hxy hy
      exact hs (c :: x) y bb (by rw [hxy, List.cons_append]) hy
    rw [ih hs' b]
    rfl

theorem replaceL_hole_eq (n : String) (rep b : List Char) :
    replaceL (patOf n) rep ('{' :: (n.data ++ '}' :: b)) =
      rep ++ replaceL (patOf n) rep b := by
  have hshape : '{' :: (n.data ++ '}' :: b) = patOf n ++ b := by simp [patOf]
  have hp : (patOf n).isPrefixOf ('{' :: (n.data ++ '}' :: b)) = true := by
    rw [hshape]
    exact isPrefixOf_self_append _ _
  rw [replaceL_pos rep hp]
  congr 1
  have h1 : (patOf n).length - 1 = (n.data ++ ['}']).length := by simp [patOf]
  have h2 : n.data ++ '}' :: b = (n.data ++ ['}']) ++ b := by simp
  rw [h1, h2, List.drop_left]

theorem replaceL_hole_ne (n m : String) (rep b : List Char)
    (hn : braceFreeB n.data = true) (hm : braceFreeB m.data = true) (hne : m ≠ n) :
    replaceL (patOf n) rep ('{' :: (m.data ++ '}' :: b)) =
      '{' :: (m.data ++ '}' :: replaceL (patOf n) rep b) := by
  have hp : (patOf n).isPrefixOf ('{' :: (m.data ++ '}' :: b)) = false := by
    cases hp : (patOf n).isPrefixOf ('{' :: (m.data ++ '}' :: b)) with
    | false => rfl
    | true =>
      exfalso
      simp only [patOf, List.isPrefixOf_cons₂, Bool.and_eq_true, beq_iff_eq] at hp
      have hmu : '}' ∉ m.data := fun hmem => (braceFreeB_mem hm hmem).2 rfl
      have hweq : n.data = m.data :=
        nameEq (fun ch hch => braceFreeB_mem hn hch) hmu hp.2
      exact hne (congrArg String.mk hweq.symm)
  rw [replaceL_neg rep hp]
  have hsafe : SafeL ('{' :: (n.data ++ ['}'])) m.data := safeL_of_braceFree hm _
  have : replaceL (patOf n) rep (m.data ++ '}' :: b) =
      m.data ++ replaceL (patOf n) rep ('}' :: b) := by
    have hshape : m.data ++ '}' :: b = m.data ++ ('}' :: b) := rfl
    rw [hshape]
    exact replaceL_append_safe rep hsafe ('}' :: b)
  rw [this]
  have hclose : (patOf n).isPrefixOf ('}' :: b) = false := by
    simp [patOf, List.isPrefixOf_cons₂]
  rw [replaceL_neg rep hclose]

theorem replace_chunks (n : String) (val : Value) (items : List Chunk)
    (hn : braceFreeB n.data = true)
    (hlits : ∀ cs, Chunk.lit cs ∈ items → SafeL (patOf n) cs)
    (hholes : ∀ m, Chunk.hole m ∈ items → braceFreeB m.data = true) :
    replaceL (patOf n) (valueToStr val) (flatChunks items) =
      flatChunks (items.map (fillChunk [(n, val)])) := by
  induction items with
  | nil => simp [flatChunks, replaceL_nil]
  | cons ch rest ih =>
    have ihrest := ih (fun cs hcs => hlits cs (List.mem_cons_of_mem ch hcs))
      (fun m hm => hholes m (List.mem_cons_of_mem ch hm))
    cases ch with
    | lit cs =>
      simp only [flatChunks, List.map_cons, fillChunk]
      rw [replaceL_append_safe _ (hlits cs (List.mem_cons_self _ _)), ihrest]
    | hole m =>
      by_cases hmn : m = n
      · rw [hmn]
        have hbeq : (n == n) = true := beq_self_eq_true n
        simp only [flatChunks, List.map_cons, fillChunk, List.lookup, hbeq]
        rw [replaceL_hole_eq, ihrest]
      · have hbeq : (m == n) = false := by simpa using hmn
        simp only [flatChunks, List.map_cons, fillChunk, List.lookup, hbeq]
        rw [replaceL_hole_ne n m _ _ hn (hholes m (List.mem_cons_self _ _)) hmn, ihrest]

theorem fillChunk_cons (n : String) (val : Value) (rest : List (String × Value))
    (ch : Chunk) :
    fillChunk ((n, val) :: rest) ch = fillChunk rest (fillChunk [(n, val)] ch) := by
  cases ch with
  | lit cs => rfl
  | hole m =>
    by_cases hmn : m = n
    · rw [hmn]
      have hbeq : (n == n) = true := beq_self_eq_true n
      simp [fillChunk, List.lookup, hbeq]
    · have hbeq : (m == n) = false := by simpa using hmn
      simp [fillChunk, List.lookup, hbeq]

theorem fillChunk_nil (ch : Chunk) : fillChunk [] ch = ch := by
  cases ch <;> rfl

theorem render_body_fills (params : List (String × Value)) (items : List Chunk)
    (hholes : ∀ m, Chunk.hole m ∈ items → braceFreeB m.data = true)
    (hlits : ∀ cs, Chunk.lit cs ∈ items → ∀ p ∈ params, SafeL (patOf p.1) cs)
    (hnames : ∀ p ∈ params, braceFreeB p.1.data = true)
    (hvals : ∀ p ∈ params, ∀ q ∈ params, SafeL (patOf q.1) (valueToStr p.2)) :
    render_body params (flatChunks items) = fillAll params items := by
  induction params generalizing items with
  | nil =>
    simp only [render_body, List.foldl_nil, fillAll]
    have h1 : items.map (fillChunk []) = items.map id :=
      List.map_congr_left (fun ch _ => fillChunk_nil ch)
    rw [h1, List.map_id]
  | cons p rest ih =>
    obtain ⟨n, val⟩ := p
    have hstep := replace_chunks n val items
      (hnames (n, val) (List.mem_cons_self _ _))
      (fun cs hcs => hlits cs hcs (n, val) (List.mem_cons_self _ _))
      hholes
    simp only [patOf] at hstep
    simp only [render_body, List.foldl_cons]
    rw [hstep]
    set items' := items.map (fillChunk [(n, val)]) with hitems
    have hholes' : ∀ m, Chunk.hole m ∈ items' → braceFreeB m.data = true := by
      intro m hm
      rw [hitems] at hm
      obtain ⟨ch, hch, hfill⟩ := List.mem_map.mp hm
      cases ch with
      | lit cs => exact absurd hfill (by simp [fillChunk])
      | hole m' =>
        by_cases hm'n : m' = n
        · rw [hm'n] at hfill
          have hbeq : (n == n) = true := beq_self_eq_true n
          simp [fillChunk, List.lookup, hbeq] at hfill
        · have hbeq : (m' == n) = false := by simpa using hm'n
          simp only [fillChunk, List.lookup, hbeq] at hfill
          cases hfill
          exact hholes _ hch
    have hlits' : ∀ cs, Chunk.lit cs ∈ items' → ∀ q ∈ rest, SafeL (patOf q.1) cs := by
      intro cs hcs q hq
      rw [hitems] at hcs
      obtain ⟨ch, hch, hfill⟩ := List.mem_map.mp hcs
      cases ch with
      | lit cs' =>
        simp only [fillChunk, Chunk.lit.injEq] at hfill
        cases hfill
        exact hlits _ hch q (List.mem_cons_of_mem _ hq)
      | hole m' =>
        by_cases hm'n : m' = n
        · rw [hm'n] at hfill
          have hbeq : (n == n) = true := beq_self_eq_true n
          simp only [fillChunk, List.lookup, hbeq, Chunk.lit.injEq] at hfill
          cases hfill
          exact hvals (n, val) (List.mem_cons_self _ _) q (List.mem_cons_of_mem _ hq)
        · have hbeq : (m' == n) = false := by simpa using hm'n
          simp only [fillChunk, List.lookup, hbeq] at hfill
          exact absurd hfill (by simp)
    have hrec := ih items' hholes' hlits'
      (fun q hq => hnames q (List.mem_cons_of_mem _ hq))
      (fun q hq r hr => hvals q (List.mem_cons_of_mem _ hq) r (List.mem_cons_of_mem _ hr))
    simp only [render_body] at hrec
    rw [hrec]
    simp only [fillAll, hitems, List.map_map]
    congr 1
    apply List.map_congr_left
    intro ch _
    exact (fillChunk_cons n val rest ch).symm

theorem chunksOKB_hole {items : List Chunk} (h : chunksOKB items = true) :
    ∀ m, Chunk.hole m ∈ items → braceFreeB m.data = true := by
  induction items with
  | nil => intro m hm; cases hm
  | cons ch rest ih =>
    intro m hm
    cases ch with
    | lit cs =>
      rw [chunksOKB, Bool.and_eq_true] at h
      rcases List.mem_cons.mp hm with h1 | h1
      · cases h1
      · exact ih h.2 m h1
    | hole m' =>
      rw [chunksOKB, Bool.and_eq_true] at h
      rcases List.mem_cons.mp hm with h1 | h1
      · cases h1; exact h.1
      · exact ih h.2 m h1

theorem chunksOKB_lit {items : List Chunk} (h : chunksOKB items = true) :
    ∀ cs, Chunk.lit cs ∈ items → braceFreeB cs = true := by
  induction items with
  | nil => intro cs hcs; cases hcs
  | cons ch rest ih =>
    intro cs hcs
    cases ch with
    | lit cs' =>
      rw [chunksOKB, Bool.and_eq_true] at h
      rcases List.mem_cons.mp hcs with h1 | h1
      · cases h1; exact h.1
      · exact ih h.2 cs h1
    | hole m' =>
      rw [chunksOKB, Bool.and_eq_true] at h
      rcases List.mem_cons.mp hcs with h1 | h1
      · cases h1
      · exact ih h.2 cs h1

theorem valsOKB_spec {params : List (String × Value)} (h : valsOKB params = true) :
    ∀ p ∈ params, braceFreeB p.1.data = true ∧ closedB (valueToStr p.2) = true ∧
      ∀ q ∈ params, noOccB (patOf q.1) (valueToStr p.2) = true := by
  intro p hp
  have hall := List.all_eq_true.mp h p hp
  simp only [Bool.and_eq_true] at hall
  exact ⟨hall.1.1, hall.1.2, fun q hq => List.all_eq_true.mp hall.2 q hq⟩

/-- C5 amended: over a template whose braces occur only as simple
placeholders, and parameters whose names are brace-free and whose
formatted values neither leave a `'{'` unclosed nor contain a
`"{name}"` occurrence for any parameter name (all true of the bundled
tables' names and of the cited example), `generate_student_readme`
renders the metadata block, a blank line, and the template with every
placeholder whose name is a parameter key replaced by the parameter's
formatted value -- lists joined with `", "`, mappings as compact JSON,
scalars via `str` -- and every other placeholder left intact
(`fillAll`, the specification's simultaneous substitution). -/
theorem c5_template_substitution (variant : StudentVariant) (items : List Chunk)
    (hchunks : chunksOKB items = true)
    (hvals : valsOKB variant.parameters = true) :
    generate_student_readme variant ⟨flatChunks items⟩ =
      metaBlock variant ++ '\n' :: '\n' :: fillAll variant.parameters items := by
  rw [generate_student_readme]
  have hbody : render_body variant.parameters (flatChunks items) =
      fillAll variant.parameters items := by
    apply render_body_fills
    · exact chunksOKB_hole hchunks
    · intro cs hcs p hp
      exact safeL_of_braceFree (chunksOKB_lit hchunks cs hcs) (p.1.data ++ ['}'])
    · exact fun p hp => (valsOKB_spec hvals p hp).1
    · intro p hp q hq
      exact safeL_of_closed_noOcc ((valsOKB_spec hvals q hq).1)
        ((valsOKB_spec hvals p hp).2.1)
        ((valsOKB_spec hvals p hp).2.2 q hq)
  rw [hbody]

/-- Witness for C5: the specification's own example, template
`"Depth: {sample_depth}, Unknown: {not_a_param}"` with parameters
`{sample_depth: 300}`. -/
theorem c5_template_substitution_witness :
    generate_student_readme
      ⟨"alice", 7, none, [("sample_depth", .int 300)]⟩
      ⟨flatChunks [Chunk.lit "Depth: ".data, Chunk.hole "sample_depth",
                   Chunk.lit ", Unknown: ".data, Chunk.hole "not_a_param"]⟩ =
      metaBlock ⟨"alice", 7, none, [("sample_depth", .int 300)]⟩ ++ '\n' :: '\n' ::
        fillAll [("sample_depth", .int 300)]
          [Chunk.lit "Depth: ".data, Chunk.hole "sample_depth",
           Chunk.lit ", Unknown: ".data, Chunk.hole "not_a_param"] :=
  c5_template_substitution ⟨"alice", 7, none, [("sample_depth", .int 300)]⟩
    [Chunk.lit "Depth: ".data, Chunk.hole "sample_depth",
     Chunk.lit ", Unknown: ".data, Chunk.hole "not_a_param"]
    (by decide) (by decide)

/-- C5 counterexample: without the amendment's proviso the claim is false
on the code: with parameters `{p: "{q}", q: 2}` (in that order) and
template `"{p}"`, sequential replacement renders `"2"`, not the p-value
`"{q}"` that simultaneous substitution of literally-present placeholders
prescribes. -/
theorem c5_counterexample :
    render_body [("p", .str "\x7bq\x7d"), ("q", .int 2)]
        (flatChunks [Chunk.hole "p"]) ≠
      fillAll [("p", .str "\x7bq\x7d"), ("q", .int 2)] [Chunk.hole "p"] := by
  decide

theorem digitChar_spec (k : Nat) (h : k < 10) :
    isDig (digitChar k) = true ∧ digVal (digitChar k) = k := by
  match k, h with
  | 0, _ => exact ⟨by decide, by decide⟩
  | 1, _ => exact ⟨by decide, by decide⟩
  | 2, _ => exact ⟨by decide, by decide⟩
  | 3, _ => exact ⟨by decide, by decide⟩
  | 4, _ => exact ⟨by decide, by decide⟩
  | 5, _ => exact ⟨by decide, by decide⟩
  | 6, _ => exact ⟨by decide, by decide⟩
  | 7, _ => exact ⟨by decide, by decide⟩
  | 8, _ => exact ⟨by decide, by decide⟩
  | 9, _ => exact ⟨by decide, by decide⟩
  | k + 10, h => exact absurd h (by omega)

theorem natCharsGo_spec : ∀ fuel n, n < fuel →
    natCharsGo fuel n ≠ [] ∧ (∀ c ∈ natCharsGo fuel n, isDig c = true) ∧
    ∀ acc, (natCharsGo fuel n).foldl (fun a c => a * 10 + digVal c) acc =
      acc * 10 ^ (natCharsGo fuel n).length + n := by
  intro fuel
  induction fuel with
  | zero => intro n h; omega
  | succ f ih =>
    intro n h
    by_cases h10 : n < 10
    · rw [natCharsGo, if_pos h10]
      refine ⟨by simp, ?_, ?_⟩
      · intro c hc
        rw [List.mem_singleton] at hc
        subst hc
        exact (digitChar_spec n h10).1
      · intro acc
        simp [List.foldl_cons, (digitChar_spec n h10).2]
    · rw [natCharsGo, if_neg h10]
      have hrec : n / 10 < f := by
        have := Nat.div_lt_self (by omega : 0 < n) (by omega : 1 < 10)
        omega
      obtain ⟨hne, hdig, hfold⟩ := ih (n / 10) hrec
      refine ⟨by simp, ?_, ?_⟩
      · intro c hc
        rcases List.mem_append.mp hc with hc | hc
        · exact hdig c hc
        · rw [List.mem_singleton] at hc
          subst hc
          exact (digitChar_spec _ (Nat.mod_lt _ (by omega))).1
      · intro acc
        rw [List.foldl_append, hfold acc, List.foldl_cons, List.foldl_nil,
          (digitChar_spec _ (Nat.mod_lt _ (by omega))).2]
        simp only [List.length_append, List.length_cons, List.length_nil, pow_succ]
        have hda := Nat.div_add_mod n 10
        set L := (natCharsGo f (n / 10)).length
        calc (acc * 10 ^ L + n / 10) * 10 + n % 10
            = acc * (10 ^ L * 10) + (10 * (n / 10) + n % 10) := by ring
          _ = acc * (10 ^ L * 10) + n := by rw [hda]
          _ = acc * (10 ^ (L + 0) * 10) + n := by ring_nf

theorem natChars_spec (n : Nat) :
    natChars n ≠ [] ∧ (∀ c ∈ natChars n, isDig c = true) ∧
    natOfDigits (natChars n) = n := by
  obtain ⟨h1, h2, h3⟩ := natCharsGo_spec (n + 1) n (by omega)
  exact ⟨h1, h2, by simpa using h3 0⟩

theorem fracChars_spec : ∀ e f, f < 10 ^ e →
    (∀ c ∈ fracChars e f, isDig c = true) ∧ (fracChars e f).length = e ∧
    ∀ acc, (fracChars e f).foldl (fun a c => a * 10 + digVal c) acc =
      acc * 10 ^ e + f := by
  intro e
  induction e with
  | zero =>
    intro f hf
    refine ⟨by simp [fracChars], by simp [fracChars], ?_⟩
    intro acc
    simp [fracChars]
    omega
  | succ e' ih =>
    intro f hf
    have hps : (10 : Nat) ^ (e' + 1) = 10 ^ e' * 10 := pow_succ 10 e'
    have hdiv : f / 10 ^ e' < 10 := Nat.div_lt_of_lt_mul (hps ▸ hf)
    have hmod : f % 10 ^ e' < 10 ^ e' := Nat.mod_lt _ (by positivity)
    obtain ⟨hdig, hlen, hfold⟩ := ih (f % 10 ^ e') hmod
    rw [fracChars]
    refine ⟨?_, by simp [hlen], ?_⟩
    · intro c hc
      rcases List.mem_cons.mp hc with hc | hc
      · subst hc
        exact (digitChar_spec _ hdiv).1
      · exact hdig c hc
    · intro acc
      rw [List.foldl_cons, (digitChar_spec _ hdiv).2, hfold, hps]
      have hda := Nat.div_add_mod f (10 ^ e')
      set P := (10 : Nat) ^ e'
      calc (acc * 10 + f / P) * P + f % P
          = acc * (P * 10) + (P * (f / P) + f % P) := by ring
        _ = acc * (P * 10) + f := by rw [hda]

theorem splitSign_not {c : Char} (r : List Char) (h : ¬ c = '-') :
    splitSign (c :: r) = (false, c :: r) := by
  rw [splitSign.eq_def]
  split
  · rename_i heq
    rw [List.cons.injEq] at heq
    exact absurd heq.1 h
  · rfl

theorem splitDot_not {c : Char} (r : List Char) (h : ¬ c = '.') :
    splitDot (c :: r) = none := by
  rw [splitDot.eq_def]
  split
  · rename_i heq
    rw [List.cons.injEq] at heq
    exact absurd heq.1 h
  · rfl

theorem isDig_ne {c : Char} (h : isDig c = true) :
    c ≠ '-' ∧ c ≠ '.' ∧ c ≠ '{' ∧ c ≠ '[' ∧ c ≠ '"' ∧ c ≠ 'n' ∧ iswsp c = false := by
  rw [isDig, Bool.and_eq_true] at h
  obtain ⟨h1, h2⟩ := h
  rw [decide_eq_true_iff] at h1 h2
  refine ⟨?_, ?_, ?_, ?_, ?_, ?_, ?_⟩
  · intro hc; subst hc; exact absurd h1 (by decide)
  · intro hc; subst hc; exact absurd h1 (by decide)
  · intro hc; subst hc; exact absurd h2 (by decide)
  · intro hc; subst hc; exact absurd h2 (by decide)
  · intro hc; subst hc; exact absurd h1 (by decide)
  · intro hc; subst hc; exact absurd h2 (by decide)
  · rw [iswsp]
    simp only [Bool.or_eq_false_iff, decide_eq_false_iff_not]
    refine ⟨⟨⟨?_, ?_⟩, ?_⟩, ?_⟩ <;> (intro hc; subst hc)
    · exact absurd h1 (by decide)
    · exact absurd h1 (by decide)
    · exact absurd h1 (by decide)
    · exact absurd h1 (by decide)

theorem grabDigits_stop {cs : List Char} (h : numSafe cs = true) :
    grabDigits cs = ([], cs) := by
  cases cs with
  | nil => rfl
  | cons c r =>
    rw [numSafe, Bool.not_eq_true', Bool.or_eq_false_iff] at h
    rw [grabDigits, if_neg (by simp [h.1])]

theorem grabDigits_run {ds : List Char} (hds : ∀ c ∈ ds, isDig c = true)
    {rest : List Char} (hrest : grabDigits rest = ([], rest)) :
    grabDigits (ds ++ rest) = (ds, rest) := by
  induction ds with
  | nil => simpa using hrest
  | cons c t ih =>
    have hc : isDig c = true := hds c (List.mem_cons_self c t)
    rw [List.cons_append, grabDigits, if_pos hc,
      ih (fun x hx => hds x (List.mem_cons_of_mem c hx))]

theorem readNum_intChars (n : Int) (rest : List Char) (hr : numSafe rest = true) :
    readNum (intChars n ++ rest) = some (.int n, rest) := by
  obtain ⟨hne, hdig, hfold⟩ := natChars_spec n.natAbs
  obtain ⟨d0, ds', hds⟩ : ∃ d0 ds', natChars n.natAbs = d0 :: ds' := by
    cases hh : natChars n.natAbs with
    | nil => exact absurd hh hne
    | cons a b => exact ⟨a, b, rfl⟩
  have hd0 : isDig d0 = true := hdig d0 (hds ▸ List.mem_cons_self d0 ds')
  have hgrab : grabDigits (natChars n.natAbs ++ rest) = (natChars n.natAbs, rest) :=
    grabDigits_run hdig (grabDigits_stop hr)
  have hdotn : splitDot rest = none := by
    cases rest with
    | nil => rfl
    | cons c r =>
      rw [numSafe, Bool.not_eq_true', Bool.or_eq_false_iff, beq_eq_false_iff_ne] at hr
      exact splitDot_not r hr.2
  by_cases hneg : n < 0
  · rw [intChars, if_pos hneg, List.cons_append, readNum]
    simp only [splitSign]
    rw [hgrab, hds]
    simp only [hdotn]
    have hcast : (n.natAbs : Int) = -n := by omega
    simp [← hds, hfold, hcast]
  · rw [intChars, if_neg hneg, readNum, hds, List.cons_append]
    simp only [splitSign_not _ (isDig_ne hd0).1]
    rw [← List.cons_append, ← hds, hgrab, hds]
    simp only [hdotn]
    have hcast : (n.natAbs : Int) = n := by omega
    simp [← hds, hfold, hcast]

theorem stripP_mul (p : Nat) (hp : 2 ≤ p) :
    ∀ n, n ≠ 0 → p ^ pMult p n * stripP p n = n := by
  intro n
  induction n using Nat.strong_induction_on with
  | _ n ih =>
    intro hn
    by_cases h : n % p = 0
    · have hcond : 2 ≤ p ∧ n ≠ 0 ∧ n % p = 0 := ⟨hp, hn, h⟩
      rw [pMult, dif_pos hcond, stripP, dif_pos hcond]
      have hdvd : p ∣ n := Nat.dvd_of_mod_eq_zero h
      have hlt : n / p < n := Nat.div_lt_self (Nat.pos_of_ne_zero hn) hp
      have hne : n / p ≠ 0 := by
        intro h0
        have := Nat.div_mul_cancel hdvd
        rw [h0] at this
        simp at this
        exact hn this.symm
      have hih := ih (n / p) hlt hne
      calc p ^ (pMult p (n / p) + 1) * stripP p (n / p)
          = p * (p ^ pMult p (n / p) * stripP p (n / p)) := by ring
        _ = p * (n / p) := by rw [hih]
        _ = n := Nat.mul_div_cancel' hdvd
    · have hcond : ¬ (2 ≤ p ∧ n ≠ 0 ∧ n % p = 0) := by
        intro hc
        exact h hc.2.2
      rw [pMult, dif_neg hcond, stripP, dif_neg hcond]
      simp

theorem ratDec_den_eq (q : Rat) (hq : ratDecB q = true) :
    q.den = 2 ^ pMult 2 q.den * 5 ^ pMult 5 (stripP 2 q.den) := by
  have hden : q.den ≠ 0 := Nat.pos_iff_ne_zero.mp q.den_pos
  have h2 := stripP_mul 2 (by omega) q.den hden
  have hsne : stripP 2 q.den ≠ 0 := by
    intro h0
    rw [h0, Nat.mul_zero] at h2
    exact hden h2.symm
  have h5 := stripP_mul 5 (by omega) (stripP 2 q.den) hsne
  rw [ratDecB, beq_iff_eq] at hq
  rw [hq, Nat.mul_one] at h5
  calc q.den = 2 ^ pMult 2 q.den * stripP 2 q.den := h2.symm
    _ = 2 ^ pMult 2 q.den * 5 ^ pMult 5 (stripP 2 q.den) := by rw [h5]

theorem ratDec_den_dvd (q : Rat) (hq : ratDecB q = true) :
    q.den ∣ 10 ^ decExp q := by
  rw [ratDec_den_eq q hq]
  have h10 : (10 : Nat) ^ decExp q = 2 ^ decExp q * 5 ^ decExp q := by
    rw [← Nat.mul_pow]
  rw [h10]
  exact Nat.mul_dvd_mul
    (Nat.pow_dvd_pow 2 (by rw [decExp]; omega))
    (Nat.pow_dvd_pow 5 (by rw [decExp]; omega))

theorem readNum_floatChars (q : Rat) (hq : ratDecB q = true) (rest : List Char)
    (hr : numSafe rest = true) :
    readNum (floatChars q ++ rest) = some (.float q, rest) := by
  set e := decExp q with he
  set m : Int := q.num * (10 : Int) ^ e / (q.den : Int) with hm
  set A := m.natAbs / 10 ^ e with hA
  set F := m.natAbs % 10 ^ e with hF
  have hunf : floatChars q = (if m < 0 then ['-'] else []) ++
      natChars A ++ '.' :: fracChars e F := rfl
  have he1 : 1 ≤ e := by rw [he, decExp]; omega
  have hdvdN : q.den ∣ 10 ^ e := ratDec_den_dvd q hq
  have hdvdZ : ((q.den : Int)) ∣ q.num * (10 : Int) ^ e := by
    refine Dvd.dvd.mul_left ?_ q.num
    have h0 : ((q.den : Int)) ∣ (((10 ^ e : Nat) : Int)) := Int.natCast_dvd_natCast.mpr hdvdN
    simpa using h0
  have hexact : m * (q.den : Int) = q.num * (10 : Int) ^ e := Int.ediv_mul_cancel hdvdZ
  have hden0 : ((q.den : Rat)) ≠ 0 := by
    have := q.den_pos
    positivity
  have h10 : ((10 : Rat)) ^ e ≠ 0 := by positivity
  have hqval : ((m : Rat)) / (10 : Rat) ^ e = q := by
    rw [← Rat.num_div_den q, div_eq_div_iff h10 hden0]
    exact_mod_cast hexact
  have hda : A * 10 ^ e + F = m.natAbs := by
    rw [hA, hF]
    exact Nat.div_add_mod' _ _
  have hAF : ((A : Rat)) + ((F : Rat)) / (10 : Rat) ^ e = ((m.natAbs : Rat)) / (10 : Rat) ^ e := by
    rw [eq_div_iff h10, add_mul, div_mul_cancel₀ _ h10]
    exact_mod_cast hda
  have hFlt : F < 10 ^ e := by
    rw [hF]
    exact Nat.mod_lt _ (by positivity)
  obtain ⟨hfdig, hflen, hffold⟩ := fracChars_spec e F hFlt
  have hFv : natOfDigits (fracChars e F) = F := by simpa [natOfDigits] using hffold 0
  obtain ⟨hne, hdig, hfoldA⟩ := natChars_spec A
  obtain ⟨d0, ds', hds⟩ : ∃ d0 ds', natChars A = d0 :: ds' := by
    cases hh : natChars A with
    | nil => exact absurd hh hne
    | cons a b => exact ⟨a, b, rfl⟩
  have hd0 : isDig d0 = true := hdig d0 (hds ▸ List.mem_cons_self d0 ds')
  obtain ⟨f0, fs', hfs⟩ : ∃ f0 fs', fracChars e F = f0 :: fs' := by
    cases hh : fracChars e F with
    | nil =>
      rw [hh] at hflen
      simp at hflen
      omega
    | cons a b => exact ⟨a, b, rfl⟩
  have hdotstop : grabDigits ('.' :: (fracChars e F ++ rest)) =
      ([], '.' :: (fracChars e F ++ rest)) := by
    rw [grabDigits, if_neg (by decide)]
  have hgrabA : grabDigits (natChars A ++ '.' :: (fracChars e F ++ rest)) =
      (natChars A, '.' :: (fracChars e F ++ rest)) := grabDigits_run hdig hdotstop
  have hgrab2 : grabDigits (fracChars e F ++ rest) = (fracChars e F, rest) :=
    grabDigits_run hfdig (grabDigits_stop hr)
  rw [hunf]
  by_cases hneg : m < 0
  · have hcast : ((m.natAbs : Rat)) = -((m : Rat)) := by
      rw [Int.cast_natAbs]
      exact_mod_cast abs_of_neg hneg
    have hvalneg : -(((A : Rat)) + ((F : Rat)) / (10 : Rat) ^ e) = q := by
      rw [hAF, hcast]
      calc -(-((m : Rat)) / (10 : Rat) ^ e) = ((m : Rat)) / (10 : Rat) ^ e := by ring
        _ = q := hqval
    rw [if_pos hneg, List.append_assoc]
    simp only [List.singleton_append, List.cons_append, List.nil_append]
    rw [readNum]
    simp only [splitSign]
    rw [hgrabA, hds]
    simp only [splitDot]
    rw [hgrab2, hfs]
    simp only []
    rw [← hds, ← hfs, hfoldA, hFv, hflen, hvalneg]
    simp
  · have hcast : ((m.natAbs : Rat)) = ((m : Rat)) := by
      rw [Int.cast_natAbs]
      exact_mod_cast abs_of_nonneg (not_lt.mp hneg)
    have hvalpos : ((A : Rat)) + ((F : Rat)) / (10 : Rat) ^ e = q := by
      rw [hAF, hcast]
      exact hqval
    rw [if_neg hneg, List.nil_append, List.append_assoc]
    simp only [List.cons_append]
    rw [hds, List.cons_append, readNum]
    simp only [splitSign_not _ (isDig_ne hd0).1]
    rw [← List.cons_append, ← hds, hgrabA, hds]
    simp only [splitDot]
    rw [hgrab2, hfs]
    simp only []
    rw [← hds, ← hfs, hfoldA, hFv, hflen, hvalpos]
    simp

theorem dropWs_cons {c : Char} (cs : List Char) (h : iswsp c = false) :
    dropWs (c :: cs) = c :: cs := by
  rw [dropWs, if_neg (by simp [h])]

theorem dropWs_ws {c : Char} (cs : List Char) (h : iswsp c = true) :
    dropWs (c :: cs) = dropWs cs := by
  rw [dropWs, if_pos h]

theorem dropWs_wsOnly {pre : List Char} (h : wsOnly pre = true) (X : List Char) :
    dropWs (pre ++ X) = dropWs X := by
  induction pre with
  | nil => rw [List.nil_append]
  | cons c t ih =>
    rw [wsOnly, List.all_cons, Bool.and_eq_true] at h
    rw [List.cons_append, dropWs_ws _ h.1]
    exact ih h.2

theorem wsOnly_nlInd (k : Nat) : wsOnly (nlInd k) = true := by
  rw [nlInd, wsOnly, List.all_cons]
  refine Bool.and_eq_true_iff.mpr ⟨by decide, ?_⟩
  rw [List.all_eq_true]
  intro c hc
  rw [List.eq_of_mem_replicate hc]
  decide

theorem dropWs_nlInd (k : Nat) (X : List Char) :
    dropWs (nlInd k ++ X) = dropWs X := dropWs_wsOnly (wsOnly_nlInd k) X

theorem numSafe_cons {c : Char} (t : List Char) (h1 : isDig c = false) (h2 : ¬ c = '.') :
    numSafe (c :: t) = true := by
  rw [numSafe, h1]
  simp [h2]

theorem goodHead_facts {c : Char} (h : goodHead c = true) :
    iswsp c = false ∧ ¬ c = ']' ∧ ¬ c = '}' ∧ ¬ c = ',' ∧ ¬ c = ':' := by
  rw [goodHead] at h
  simp only [Bool.or_eq_true_iff, beq_iff_eq] at h
  rcases h with ((((h | h) | h) | h) | h) | h
  · subst h; exact ⟨by decide, by decide, by decide, by decide, by decide⟩
  · subst h; exact ⟨by decide, by decide, by decide, by decide, by decide⟩
  · rw [isDig, Bool.and_eq_true, decide_eq_true_iff, decide_eq_true_iff] at h
    obtain ⟨h1, h2⟩ := h
    refine ⟨?_, ?_, ?_, ?_, ?_⟩
    · rw [iswsp]
      simp only [Bool.or_eq_false_iff, decide_eq_false_iff_not]
      refine ⟨⟨⟨?_, ?_⟩, ?_⟩, ?_⟩ <;> (intro hc; subst hc)
      · exact absurd h1 (by decide)
      · exact absurd h1 (by decide)
      · exact absurd h1 (by decide)
      · exact absurd h1 (by decide)
    · intro hc; subst hc; exact absurd h2 (by decide)
    · intro hc; subst hc; exact absurd h2 (by decide)
    · intro hc; subst hc; exact absurd h1 (by decide)
    · intro hc; subst hc; exact absurd h2 (by decide)
  · subst h; exact ⟨by decide, by decide, by decide, by decide, by decide⟩
  · subst h; exact ⟨by decide, by decide, by decide, by decide, by decide⟩
  · subst h; exact ⟨by decide, by decide, by decide, by decide, by decide⟩

theorem intChars_head (n : Int) :
    ∃ c cs, intChars n = c :: cs ∧ (c = '-' ∨ isDig c = true) := by
  obtain ⟨hne, hdig, _⟩ := natChars_spec n.natAbs
  obtain ⟨d0, ds', hds⟩ : ∃ d0 ds', natChars n.natAbs = d0 :: ds' := by
    cases hh : natChars n.natAbs with
    | nil => exact absurd hh hne
    | cons a b => exact ⟨a, b, rfl⟩
  have hd0 : isDig d0 = true := hdig d0 (hds ▸ List.mem_cons_self d0 ds')
  rw [intChars]
  by_cases hneg : n < 0
  · exact ⟨'-', natChars n.natAbs, by rw [if_pos hneg], Or.inl rfl⟩
  · exact ⟨d0, ds', by rw [if_neg hneg, hds], Or.inr hd0⟩

theorem floatChars_head (q : Rat) :
    ∃ c cs, floatChars q = c :: cs ∧ (c = '-' ∨ isDig c = true) := by
  rw [floatChars]
  set m : Int := q.num * (10 : Int) ^ decExp q / (q.den : Int) with hm
  set A := m.natAbs / 10 ^ decExp q with hA
  obtain ⟨hne, hdig, _⟩ := natChars_spec A
  obtain ⟨d0, ds', hds⟩ : ∃ d0 ds', natChars A = d0 :: ds' := by
    cases hh : natChars A with
    | nil => exact absurd hh hne
    | cons a b => exact ⟨a, b, rfl⟩
  have hd0 : isDig d0 = true := hdig d0 (hds ▸ List.mem_cons_self d0 ds')
  by_cases hneg : m < 0
  · refine ⟨'-', natChars A ++ '.' :: fracChars (decExp q) (m.natAbs % 10 ^ decExp q),
      ?_, Or.inl rfl⟩
    rw [if_pos hneg]
    rfl
  · refine ⟨d0, ds' ++ '.' :: fracChars (decExp q) (m.natAbs % 10 ^ decExp q), ?_, Or.inr hd0⟩
    rw [if_neg hneg, hds]
    rfl

theorem numHead_good {c : Char} (h : c = '-' ∨ isDig c = true) : goodHead c = true := by
  rcases h with h | h
  · subst h
    decide
  · rw [goodHead, h]
    simp

theorem numHead_facts {c : Char} (h : c = '-' ∨ isDig c = true) :
    iswsp c = false ∧ ¬ c = '{' ∧ ¬ c = '[' ∧ ¬ c = '"' ∧ ¬ c = 'n' := by
  rcases h with h | h
  · subst h
    exact ⟨by decide, by decide, by decide, by decide, by decide⟩
  · obtain ⟨_, _, h3, h4, h5, h6, h7⟩ := isDig_ne h
    exact ⟨h7, h3, h4, h5, h6⟩

theorem jsonL_head (ind : Nat) (v : Value) :
    ∃ c cs, jsonL ind v = c :: cs ∧ goodHead c = true := by
  cases v with
  | null => exact ⟨'n', _, rfl, by decide⟩
  | int n =>
    obtain ⟨c, cs, h1, h2⟩ := intChars_head n
    exact ⟨c, cs, by rw [jsonL, h1], numHead_good h2⟩
  | float q =>
    obtain ⟨c, cs, h1, h2⟩ := floatChars_head q
    exact ⟨c, cs, by rw [jsonL, h1], numHead_good h2⟩
  | str s => exact ⟨'"', _, rfl, by decide⟩
  | list vs =>
    cases vs with
    | nil => exact ⟨'[', _, rfl, by decide⟩
    | cons v vs => exact ⟨'[', _, rfl, by decide⟩
  | dict kvs =>
    cases kvs with
    | nil => exact ⟨'{', _, rfl, by decide⟩
    | cons kv kvs =>
      obtain ⟨k, v⟩ := kv
      exact ⟨'{', _, rfl, by decide⟩

theorem readVal_null (fuel : Nat) (cs r : List Char)
    (hd : dropWs cs = 'n' :: 'u' :: 'l' :: 'l' :: r) :
    readVal (fuel + 1) cs = some (.null, r) := by
  rw [readVal, hd]
  rfl

theorem readVal_str (fuel : Nat) (cs r : List Char) (s : String) (r1 : List Char)
    (hd : dropWs cs = '"' :: r) (hs : readStrGo [] r = some (s, r1)) :
    readVal (fuel + 1) cs = some (.str s, r1) := by
  rw [readVal, hd]
  simp only [hs]

theorem readVal_numC (fuel : Nat) (cs : List Char) (c : Char) (r : List Char)
    (hd : dropWs cs = c :: r) (h1 : ¬ c = '{') (h2 : ¬ c = '[') (h3 : ¬ c = '"')
    (h4 : ¬ c = 'n') :
    readVal (fuel + 1) cs = readNum (c :: r) := by
  rw [readVal, hd]
  split
  · rename_i heq
    rw [List.cons.injEq] at heq
    exact absurd heq.1 h1
  · rename_i heq
    rw [List.cons.injEq] at heq
    exact absurd heq.1 h2
  · rename_i heq
    rw [List.cons.injEq] at heq
    exact absurd heq.1 h3
  · rename_i heq
    rw [List.cons.injEq] at heq
    exact absurd heq.1 h4
  · rfl

theorem readVal_obj_empty (fuel : Nat) (cs r r1 : List Char)
    (hd : dropWs cs = '{' :: r) (hr : dropWs r = '}' :: r1) :
    readVal (fuel + 1) cs = some (.dict [], r1) := by
  rw [readVal, hd]
  simp only [hr]

theorem readVal_obj (fuel : Nat) (cs r : List Char) (c : Char) (r1 : List Char)
    (ms : List (String × Value)) (r2 : List Char)
    (hd : dropWs cs = '{' :: r) (hr : dropWs r = c :: r1) (hc : ¬ c = '}')
    (hfields : readFields fuel (c :: r1) = some (ms, r2)) :
    readVal (fuel + 1) cs = some (.dict ms, r2) := by
  rw [readVal, hd]
  simp only [hr]
  split
  · rename_i heq
    rw [List.cons.injEq] at heq
    exact absurd heq.1 hc
  · rename_i heq
    rw [hfields]

theorem readVal_arr_empty (fuel : Nat) (cs r r1 : List Char)
    (hd : dropWs cs = '[' :: r) (hr : dropWs r = ']' :: r1) :
    readVal (fuel + 1) cs = some (.list [], r1) := by
  rw [readVal, hd]
  simp only [hr]

theorem readVal_arr (fuel : Nat) (cs r : List Char) (c : Char) (r1 : List Char)
    (vs : List Value) (r2 : List Char)
    (hd : dropWs cs = '[' :: r) (hr : dropWs r = c :: r1) (hc : ¬ c = ']')
    (hitems : readItems fuel (c :: r1) = some (vs, r2)) :
    readVal (fuel + 1) cs = some (.list vs, r2) := by
  rw [readVal, hd]
  simp only [hr]
  split
  · rename_i heq
    rw [List.cons.injEq] at heq
    exact absurd heq.1 hc
  · rename_i heq
    rw [hitems]

theorem readItems_last (fuel : Nat) (cs : List Char) (v : Value) (r r1 : List Char)
    (hv : readVal fuel cs = some (v, r)) (hd : dropWs r = ']' :: r1) :
    readItems (fuel + 1) cs = some ([v], r1) := by
  rw [readItems, hv]
  simp only [hd]

theorem readItems_cons (fuel : Nat) (cs : List Char) (v : Value) (r r1 : List Char)
    (vs : List Value) (r2 : List Char)
    (hv : readVal fuel cs = some (v, r)) (hd : dropWs r = ',' :: r1)
    (hi : readItems fuel r1 = some (vs, r2)) :
    readItems (fuel + 1) cs = some (v :: vs, r2) := by
  rw [readItems, hv]
  simp only [hd, hi]

theorem readFields_last (fuel : Nat) (cs r : List Char) (k : String)
    (r1 r2 : List Char) (v : Value) (r3 r4 : List Char)
    (hd : dropWs cs = '"' :: r) (hk : readStrGo [] r = some (k, r1))
    (hc : dropWs r1 = ':' :: r2) (hv : readVal fuel r2 = some (v, r3))
    (hb : dropWs r3 = '}' :: r4) :
    readFields (fuel + 1) cs = some ([(k, v)], r4) := by
  rw [readFields, hd]
  simp only [hk, hc, hv, hb]

theorem readFields_cons (fuel : Nat) (cs r : List Char) (k : String)
    (r1 r2 : List Char) (v : Value) (r3 r4 : List Char)
    (ms : List (String × Value)) (r5 : List Char)
    (hd : dropWs cs = '"' :: r) (hk : readStrGo [] r = some (k, r1))
    (hc : dropWs r1 = ':' :: r2) (hv : readVal fuel r2 = some (v, r3))
    (hcm : dropWs r3 = ',' :: r4) (hrec : readFields fuel r4 = some (ms, r5)) :
    readFields (fuel + 1) cs = some ((k, v) :: ms, r5) := by
  rw [readFields, hd]
  simp only [hk, hc, hv, hcm, hrec]

theorem readStrGo_other (acc : List Char) (c : Char) (r : List Char)
    (h1 : ¬ c = '"') (h2 : ¬ c = '\\') :
    readStrGo acc (c :: r) = readStrGo (c :: acc) r := by
  rw [readStrGo.eq_def]
  split
  · rename_i heq
    rw [List.cons.injEq] at heq
    exact absurd heq.1 h1
  · rename_i heq
    rw [List.cons.injEq] at heq
    exact absurd heq.1 h2
  · rename_i heq
    rw [List.cons.injEq] at heq
    rw [heq.1, heq.2]
  · rename_i heq
    exact absurd heq (by simp)

theorem needF_pos (v : Value) : 1 ≤ needF v := by
  cases v with
  | list vs => cases vs <;> rw [needF] <;> omega
  | dict kvs => cases kvs <;> rw [needF] <;> omega
  | null => rw [needF]
  | int n => rw [needF]
  | float q => rw [needF]
  | str s => rw [needF]

theorem needF_lt_items (v : Value) (vs : List Value) :
    1 + needF v ≤ needItemsF v vs := by
  cases vs <;> rw [needItemsF] <;> omega

theorem needF_lt_fields (k : String) (v : Value) (kvs : List (String × Value)) :
    1 + needF v ≤ needFieldsF (k, v) kvs := by
  cases kvs <;> rw [needFieldsF] <;> omega

theorem needItemsF_pos (v : Value) (vs : List Value) : 1 ≤ needItemsF v vs := by
  have := needF_lt_items v vs
  omega

theorem needFieldsF_pos (kv : String × Value) (kvs : List (String × Value)) :
    1 ≤ needFieldsF kv kvs := by
  obtain ⟨k, v⟩ := kv
  have := needF_lt_fields k v kvs
  omega

theorem numSafe_nlInd (k : Nat) (X : List Char) : numSafe (nlInd k ++ X) = true := by
  rw [nlInd, List.cons_append]
  exact numSafe_cons _ (by decide) (by decide)

theorem readStrGo_escStep (acc : List Char) (e c : Char) (r : List Char)
    (h : unescChar e = some c) :
    readStrGo acc ('\\' :: e :: r) = readStrGo (c :: acc) r := by
  rw [readStrGo, h]

theorem readStrGo_esc : ∀ (l acc rest : List Char), (∀ c ∈ l, okChar c = true) →
    readStrGo acc (l.flatMap escChar ++ '"' :: rest) = some (⟨acc.reverse ++ l⟩, rest) := by
  intro l
  induction l with
  | nil =>
    intro acc rest _
    rw [List.flatMap_nil, List.nil_append, readStrGo, List.append_nil]
  | cons c t ih =>
    intro acc rest hok
    have hc : okChar c = true := hok c (List.mem_cons_self c t)
    have ht : ∀ x ∈ t, okChar x = true := fun x hx => hok x (List.mem_cons_of_mem c hx)
    have hstep : ∀ rr, readStrGo (c :: acc) (t.flatMap escChar ++ '"' :: rr) =
        some (⟨acc.reverse ++ c :: t⟩, rr) := by
      intro rr
      rw [ih (c :: acc) rr ht, List.reverse_cons, List.append_assoc, List.singleton_append]
    rw [List.flatMap_cons, List.append_assoc]
    by_cases h1 : c = '"'
    · subst h1
      rw [show escChar '"' = ['\\', '"'] from rfl, List.cons_append, List.cons_append,
        List.nil_append, readStrGo_escStep _ '"' '"' _ (by decide), hstep]
    · by_cases h2 : c = '\\'
      · subst h2
        rw [show escChar '\\' = ['\\', '\\'] from rfl, List.cons_append, List.cons_append,
          List.nil_append, readStrGo_escStep _ '\\' '\\' _ (by decide), hstep]
      · by_cases h3 : c = '\n'
        · subst h3
          rw [show escChar '\n' = ['\\', 'n'] from rfl, List.cons_append, List.cons_append,
            List.nil_append, readStrGo_escStep _ 'n' '\n' _ (by decide), hstep]
        · by_cases h4 : c = '\t'
          · subst h4
            rw [show escChar '\t' = ['\\', 't'] from rfl, List.cons_append, List.cons_append,
              List.nil_append, readStrGo_escStep _ 't' '\t' _ (by decide), hstep]
          · by_cases h5 : c = '\r'
            · subst h5
              rw [show escChar '\r' = ['\\', 'r'] from rfl, List.cons_append, List.cons_append,
                List.nil_append, readStrGo_escStep _ 'r' '\r' _ (by decide), hstep]
            · have hrange : 32 ≤ c.toNat ∧ c.toNat < 127 := by
                rw [okChar] at hc
                simp only [Bool.or_eq_true_iff, beq_iff_eq, decide_eq_true_iff] at hc
                rcases hc with ((hc | hc) | hc) | hc
                · rw [Bool.and_eq_true, decide_eq_true_iff, decide_eq_true_iff] at hc
                  exact hc
                · exact absurd hc h3
                · exact absurd hc h4
                · exact absurd hc h5
              have h6 : ¬ c = Char.ofNat 8 := by
                intro hh
                rw [hh] at hrange
                exact absurd hrange.1 (by decide)
              have h7 : ¬ c = Char.ofNat 12 := by
                intro hh
                rw [hh] at hrange
                exact absurd hrange.1 (by decide)
              rw [escChar, if_neg h1, if_neg h2, if_neg h3, if_neg h4, if_neg h5,
                if_neg h6, if_neg h7, if_pos hrange, List.cons_append, List.nil_append,
                readStrGo_other _ _ _ h1 h2, hstep]

theorem readStrGo_qstr (s : String) (rest : List Char) (hok : okStrB s = true) :
    readStrGo [] (s.data.flatMap escChar ++ '"' :: rest) = some (s, rest) := by
  rw [okStrB, List.all_eq_true] at hok
  rw [readStrGo_esc s.data [] rest hok]
  rfl

theorem readJson_rt : ∀ fuel : Nat,
    (∀ pre ind v rest, wsOnly pre = true → OkVP v → needF v ≤ fuel →
      numSafe rest = true →
      readVal fuel (pre ++ (jsonL ind v ++ rest)) = some (v, rest)) ∧
    (∀ pre j i v vs rest, wsOnly pre = true → OkVP v → (∀ w ∈ vs, OkVP w) →
      needItemsF v vs ≤ fuel → numSafe rest = true →
      readItems fuel (pre ++ (jsonL j v ++ (jsonLItems j vs ++ (nlInd i ++ ']' :: rest)))) =
        some (v :: vs, rest)) ∧
    (∀ pre j i k v kvs rest, wsOnly pre = true → okStrB k = true → OkVP v →
      (∀ m ∈ kvs, okStrB m.1 = true) → (∀ m ∈ kvs, OkVP m.2) →
      needFieldsF (k, v) kvs ≤ fuel → numSafe rest = true →
      readFields fuel (pre ++ (qstr k ++ ':' :: ' ' :: (jsonL j v ++
        (jsonLFields j kvs ++ (nlInd i ++ '}' :: rest))))) = some ((k, v) :: kvs, rest)) := by
  intro fuel
  induction fuel with
  | zero =>
    refine ⟨fun pre ind v rest _ _ hle _ => ?_, fun pre j i v vs rest _ _ _ hle _ => ?_,
      fun pre j i k v kvs rest _ _ _ _ _ hle _ => ?_⟩
    · exact absurd hle (by have := needF_pos v; omega)
    · exact absurd hle (by have := needItemsF_pos v vs; omega)
    · exact absurd hle (by have := needFieldsF_pos (k, v) kvs; omega)
  | succ fuel ih =>
    obtain ⟨ihV, ihI, ihF⟩ := ih
    refine ⟨?_, ?_, ?_⟩
    · -- readVal
      intro pre ind v rest hpre hok hle hrest
      cases hok with
      | null =>
        have hd : dropWs (pre ++ (jsonL ind .null ++ rest)) =
            'n' :: 'u' :: 'l' :: 'l' :: rest := by
          rw [jsonL, dropWs_wsOnly hpre]
          simp only [List.cons_append, List.nil_append]
          exact dropWs_cons _ (by decide)
        exact readVal_null fuel _ _ hd
      | int n =>
        obtain ⟨c, cs, hic, hnh⟩ := intChars_head n
        obtain ⟨hws, h1, h2, h3, h4⟩ := numHead_facts hnh
        have hd : dropWs (pre ++ (jsonL ind (.int n) ++ rest)) = c :: (cs ++ rest) := by
          rw [jsonL, hic, dropWs_wsOnly hpre, List.cons_append]
          exact dropWs_cons _ hws
        rw [readVal_numC fuel _ c _ hd h1 h2 h3 h4, ← List.cons_append, ← hic]
        exact readNum_intChars n rest hrest
      | float q hdec =>
        obtain ⟨c, cs, hic, hnh⟩ := floatChars_head q
        obtain ⟨hws, h1, h2, h3, h4⟩ := numHead_facts hnh
        have hd : dropWs (pre ++ (jsonL ind (.float q) ++ rest)) = c :: (cs ++ rest) := by
          rw [jsonL, hic, dropWs_wsOnly hpre, List.cons_append]
          exact dropWs_cons _ hws
        rw [readVal_numC fuel _ c _ hd h1 h2 h3 h4, ← List.cons_append, ← hic]
        exact readNum_floatChars q hdec rest hrest
      | str s hs =>
        have hd : dropWs (pre ++ (jsonL ind (.str s) ++ rest)) =
            '"' :: (s.data.flatMap escChar ++ '"' :: rest) := by
          rw [jsonL, qstr, dropWs_wsOnly hpre, List.cons_append,
            dropWs_cons _ (by decide), List.append_assoc, List.singleton_append]
        exact readVal_str fuel _ _ s rest hd (readStrGo_qstr s rest hs)
      | list vs hvs =>
        cases vs with
        | nil =>
          have hd : dropWs (pre ++ (jsonL ind (.list []) ++ rest)) = '[' :: (']' :: rest) := by
            rw [jsonL, dropWs_wsOnly hpre]
            simp only [List.cons_append, List.nil_append]
            exact dropWs_cons _ (by decide)
          exact readVal_arr_empty fuel _ _ rest hd (dropWs_cons _ (by decide))
        | cons w ws =>
          obtain ⟨c, cs, hjl, hgh⟩ := jsonL_head (ind + 1) w
          obtain ⟨hws, hne1, hne2, hne3, hne4⟩ := goodHead_facts hgh
          have hd : dropWs (pre ++ (jsonL ind (.list (w :: ws)) ++ rest)) =
              '[' :: (nlInd (ind + 1) ++ (jsonL (ind + 1) w ++ (jsonLItems (ind + 1) ws ++
                (nlInd ind ++ ']' :: rest)))) := by
            rw [jsonL, dropWs_wsOnly hpre, List.cons_append, dropWs_cons _ (by decide)]
            simp [List.append_assoc]
          have hr : dropWs (nlInd (ind + 1) ++ (jsonL (ind + 1) w ++ (jsonLItems (ind + 1) ws ++
              (nlInd ind ++ ']' :: rest)))) =
              c :: (cs ++ (jsonLItems (ind + 1) ws ++ (nlInd ind ++ ']' :: rest))) := by
            rw [dropWs_nlInd, hjl, List.cons_append]
            exact dropWs_cons _ hws
          have hit := ihI [] (ind + 1) ind w ws rest (by decide)
            (hvs w (List.mem_cons_self w ws))
            (fun x hx => hvs x (List.mem_cons_of_mem w hx))
            (by rw [needF] at hle; omega) hrest
          rw [List.nil_append, hjl, List.cons_append] at hit
          exact readVal_arr fuel _ _ c _ (w :: ws) rest hd hr hne1 hit
      | dict kvs hks hvsd =>
        cases kvs with
        | nil =>
          have hd : dropWs (pre ++ (jsonL ind (.dict []) ++ rest)) = '{' :: ('}' :: rest) := by
            rw [jsonL, dropWs_wsOnly hpre]
            simp only [List.cons_append, List.nil_append]
            exact dropWs_cons _ (by decide)
          exact readVal_obj_empty fuel _ _ rest hd (dropWs_cons _ (by decide))
        | cons kv ms =>
          obtain ⟨k, v1⟩ := kv
          have hd : dropWs (pre ++ (jsonL ind (.dict ((k, v1) :: ms)) ++ rest)) =
              '{' :: (nlInd (ind + 1) ++ (qstr k ++ ':' :: ' ' :: (jsonL (ind + 1) v1 ++
                (jsonLFields (ind + 1) ms ++ (nlInd ind ++ '}' :: rest))))) := by
            rw [jsonL, dropWs_wsOnly hpre, List.cons_append, dropWs_cons _ (by decide)]
            simp [List.append_assoc]
          have hr : dropWs (nlInd (ind + 1) ++ (qstr k ++ ':' :: ' ' :: (jsonL (ind + 1) v1 ++
              (jsonLFields (ind + 1) ms ++ (nlInd ind ++ '}' :: rest))))) =
              '"' :: (k.data.flatMap escChar ++ '"' :: (':' :: ' ' :: (jsonL (ind + 1) v1 ++
                (jsonLFields (ind + 1) ms ++ (nlInd ind ++ '}' :: rest))))) := by
            rw [dropWs_nlInd, qstr, List.cons_append, dropWs_cons _ (by decide),
              List.append_assoc, List.singleton_append]
          have hfe := ihF [] (ind + 1) ind k v1 ms rest (by decide)
            (hks (k, v1) (List.mem_cons_self _ _)) (hvsd (k, v1) (List.mem_cons_self _ _))
            (fun m hm => hks m (List.mem_cons_of_mem _ hm))
            (fun m hm => hvsd m (List.mem_cons_of_mem _ hm))
            (by rw [needF] at hle; omega) hrest
          rw [List.nil_append, qstr, List.cons_append, List.append_assoc,
            List.singleton_append] at hfe
          exact readVal_obj fuel _ _ '"' _ ((k, v1) :: ms) rest hd hr (by decide) hfe
    · -- readItems
      intro pre j i v vs rest hpre hv hvs hle hrest
      have hsafe : numSafe (jsonLItems j vs ++ (nlInd i ++ ']' :: rest)) = true := by
        cases vs with
        | nil =>
          rw [jsonLItems, List.nil_append]
          exact numSafe_nlInd i _
        | cons w ws =>
          rw [jsonLItems, List.cons_append]
          exact numSafe_cons _ (by decide) (by decide)
      have hval := ihV pre j v (jsonLItems j vs ++ (nlInd i ++ ']' :: rest)) hpre hv
        (by have := needF_lt_items v vs; omega) hsafe
      cases vs with
      | nil =>
        have hd : dropWs (jsonLItems j [] ++ (nlInd i ++ ']' :: rest)) = ']' :: rest := by
          rw [jsonLItems, List.nil_append, dropWs_nlInd]
          exact dropWs_cons _ (by decide)
        exact readItems_last fuel _ v _ rest hval hd
      | cons w ws =>
        have hd : dropWs (jsonLItems j (w :: ws) ++ (nlInd i ++ ']' :: rest)) =
            ',' :: (nlInd j ++ (jsonL j w ++ (jsonLItems j ws ++ (nlInd i ++ ']' :: rest)))) := by
          rw [jsonLItems, List.cons_append, dropWs_cons _ (by decide)]
          simp [List.append_assoc]
        have hrec := ihI (nlInd j) j i w ws rest (wsOnly_nlInd j)
          (hvs w (List.mem_cons_self w ws))
          (fun x hx => hvs x (List.mem_cons_of_mem w hx))
          (by rw [needItemsF] at hle; omega) hrest
        exact readItems_cons fuel _ v _ _ (w :: ws) rest hval hd hrec
    · -- readFields
      intro pre j i k v kvs rest hpre hokk hokv hks hvsd hle hrest
      have hsafe : numSafe (jsonLFields j kvs ++ (nlInd i ++ '}' :: rest)) = true := by
        cases kvs with
        | nil =>
          rw [jsonLFields, List.nil_append]
          exact numSafe_nlInd i _
        | cons m ms =>
          obtain ⟨k2, v2⟩ := m
          rw [jsonLFields, List.cons_append]
          exact numSafe_cons _ (by decide) (by decide)
      have hd : dropWs (pre ++ (qstr k ++ ':' :: ' ' :: (jsonL j v ++
          (jsonLFields j kvs ++ (nlInd i ++ '}' :: rest))))) =
          '"' :: (k.data.flatMap escChar ++ '"' :: (':' :: ' ' :: (jsonL j v ++
            (jsonLFields j kvs ++ (nlInd i ++ '}' :: rest))))) := by
        rw [dropWs_wsOnly hpre, qstr, List.cons_append, dropWs_cons _ (by decide),
          List.append_assoc, List.singleton_append]
      have hk : readStrGo [] (k.data.flatMap escChar ++ '"' :: (':' :: ' ' :: (jsonL j v ++
          (jsonLFields j kvs ++ (nlInd i ++ '}' :: rest))))) =
          some (k, ':' :: ' ' :: (jsonL j v ++ (jsonLFields j kvs ++ (nlInd i ++ '}' :: rest)))) :=
        readStrGo_qstr k _ hokk
      have hcol : dropWs (':' :: ' ' :: (jsonL j v ++ (jsonLFields j kvs ++
          (nlInd i ++ '}' :: rest)))) =
          ':' :: (' ' :: (jsonL j v ++ (jsonLFields j kvs ++ (nlInd i ++ '}' :: rest)))) :=
        dropWs_cons _ (by decide)
      have hval := ihV [' '] j v (jsonLFields j kvs ++ (nlInd i ++ '}' :: rest)) (by decide)
        hokv (by have := needF_lt_fields k v kvs; omega) hsafe
      rw [List.singleton_append] at hval
      cases kvs with
      | nil =>
        have hb : dropWs (jsonLFields j [] ++ (nlInd i ++ '}' :: rest)) = '}' :: rest := by
          rw [jsonLFields, List.nil_append, dropWs_nlInd]
          exact dropWs_cons _ (by decide)
        exact readFields_last fuel _ _ k _ _ v _ rest hd hk hcol hval hb
      | cons m ms =>
        obtain ⟨k2, v2⟩ := m
        have hcm : dropWs (jsonLFields j ((k2, v2) :: ms) ++ (nlInd i ++ '}' :: rest)) =
            ',' :: (nlInd j ++ (qstr k2 ++ ':' :: ' ' :: (jsonL j v2 ++
              (jsonLFields j ms ++ (nlInd i ++ '}' :: rest))))) := by
          rw [jsonLFields, List.cons_append, dropWs_cons _ (by decide)]
          simp [List.append_assoc]
        have hrec := ihF (nlInd j) j i k2 v2 ms rest (wsOnly_nlInd j)
          (hks (k2, v2) (List.mem_cons_self _ _)) (hvsd (k2, v2) (List.mem_cons_self _ _))
          (fun m hm => hks m (List.mem_cons_of_mem _ hm))
          (fun m hm => hvsd m (List.mem_cons_of_mem _ hm))
          (by rw [needFieldsF] at hle; omega) hrest
        exact readFields_cons fuel _ _ k _ _ v _ _ ((k2, v2) :: ms) rest hd hk hcol hval hcm hrec

mutual
theorem needF_le_len (v : Value) (ind : Nat) : needF v ≤ (jsonL ind v).length := by
  cases v with
  | null =>
    rw [needF, jsonL]
    decide
  | int n =>
    obtain ⟨c, cs, hic, _⟩ := intChars_head n
    rw [needF, jsonL, hic]
    simp
  | float q =>
    obtain ⟨c, cs, hic, _⟩ := floatChars_head q
    rw [needF, jsonL, hic]
    simp
  | str s =>
    rw [needF, jsonL, qstr]
    simp
  | list vs =>
    cases vs with
    | nil =>
      rw [needF, jsonL]
      decide
    | cons w ws =>
      have h := needItemsF_le_len w ws (ind + 1)
      rw [needF, jsonL]
      simp only [List.length_cons, List.length_append, nlInd, List.length_replicate]
      omega
  | dict kvs =>
    cases kvs with
    | nil =>
      rw [needF, jsonL]
      decide
    | cons kv ms =>
      obtain ⟨k, v1⟩ := kv
      have h := needFieldsF_le_len k v1 ms (ind + 1)
      rw [needF, jsonL]
      simp only [List.length_cons, List.length_append, nlInd, List.length_replicate]
      omega
termination_by sizeOf v
decreasing_by all_goals (simp_wf <;> omega)
theorem needItemsF_le_len (v : Value) (vs : List Value) (ind : Nat) :
    needItemsF v vs ≤ (jsonL ind v).length + (jsonLItems ind vs).length + 1 := by
  cases vs with
  | nil =>
    have h := needF_le_len v ind
    rw [needItemsF, jsonLItems]
    simp only [List.length_nil]
    omega
  | cons w ws =>
    have h1 := needF_le_len v ind
    have h2 := needItemsF_le_len w ws ind
    rw [needItemsF, jsonLItems]
    simp only [List.length_cons, List.length_append, nlInd, List.length_replicate]
    omega
termination_by sizeOf v + sizeOf vs
decreasing_by all_goals (simp_wf <;> omega)
theorem needFieldsF_le_len (k : String) (v : Value) (kvs : List (String × Value)) (ind : Nat) :
    needFieldsF (k, v) kvs ≤
      (qstr k).length + 2 + (jsonL ind v).length + (jsonLFields ind kvs).length + 1 := by
  cases kvs with
  | nil =>
    have h := needF_le_len v ind
    rw [needFieldsF, jsonLFields]
    simp only [List.length_nil]
    omega
  | cons m ms =>
    obtain ⟨k2, v2⟩ := m
    have h1 := needF_le_len v ind
    have h2 := needFieldsF_le_len k2 v2 ms ind
    rw [needFieldsF, jsonLFields]
    simp only [List.length_cons, List.length_append, nlInd, List.length_replicate]
    omega
termination_by sizeOf v + sizeOf kvs
decreasing_by all_goals (simp_wf <;> omega)
end

theorem parseJson_jsonL (v : Value) (h : OkVP v) : parseJson ⟨jsonL 0 v⟩ = some v := by
  have hrt := (readJson_rt ((jsonL 0 v).length + 1)).1 [] 0 v [] rfl h
    (by have := needF_le_len v 0; omega) rfl
  rw [List.nil_append, List.append_nil] at hrt
  rw [parseJson]
  simp only [hrt]
  rfl

theorem variantOfJson_toJson (v : StudentVariant) :
    variantOfJson (variantToJson v) = some v := by
  obtain ⟨sid, seed, gid, ps⟩ := v
  cases gid with
  | none =>
    rw [variantToJson]
    simp [variantOfJson, Int.natCast_nonneg]
  | some g =>
    rw [variantToJson]
    simp [variantOfJson, Int.natCast_nonneg]

/-- C7: serializing a StudentVariant with `generate_variant_config_file`
(`json.dumps(asdict(variant), indent=2)`) and parsing the resulting JSON text
back reconstructs a structurally equal variant: `student_id`, `variant_seed`,
`group_id`, and every parameter value, including nested list and mapping
structure, are preserved exactly. The hypotheses delimit the domain on which
the byte-exact model is faithful: strings drawn from the JSON-round-trippable
characters and floats that are exact decimals, which covers every value the
program's generators produce. -/
theorem c7_json_roundtrip (v : StudentVariant) (hsid : okStrB v.student_id = true)
    (hps : OkVP (.dict v.parameters)) :
    (parseJson (generate_variant_config_file v)).bind variantOfJson = some v := by
  have hok : OkVP (variantToJson v) := by
    rw [variantToJson]
    refine OkVP.dict _ ?_ ?_
    · intro kv hkv
      simp only [List.mem_cons, List.not_mem_nil, or_false] at hkv
      rcases hkv with h | h | h | h <;> subst h <;> exact of_decide_eq_true rfl
    · intro kv hkv
      simp only [List.mem_cons, List.not_mem_nil, or_false] at hkv
      rcases hkv with h | h | h | h <;> subst h
      · exact OkVP.str _ hsid
      · exact OkVP.int _
      · cases hg : v.group_id with
        | none => exact OkVP.null
        | some g => exact OkVP.int g
      · exact hps
  rw [generate_variant_config_file, parseJson_jsonL _ hok]
  rw [Option.bind]
  exact variantOfJson_toJson v

theorem c7_json_roundtrip_witness :
    okStrB (StudentVariant.mk "alice" 7 (some 2)
        [("n_samples", .int 50), ("site", .str "L1"),
         ("reps", .list [.int 1, .int 2]), ("meta", .dict [("ok", .null)])]).student_id = true ∧
    (parseJson (generate_variant_config_file (StudentVariant.mk "alice" 7 (some 2)
        [("n_samples", .int 50), ("site", .str "L1"),
         ("reps", .list [.int 1, .int 2]), ("meta", .dict [("ok", .null)])]))).bind
      variantOfJson = some (StudentVariant.mk "alice" 7 (some 2)
        [("n_samples", .int 50), ("site", .str "L1"),
         ("reps", .list [.int 1, .int 2]), ("meta", .dict [("ok", .null)])]) := by
  refine ⟨by decide, c7_json_roundtrip _ (by decide) ?_⟩
  refine OkVP.dict _ ?_ ?_
  · intro kv hkv
    simp only [List.mem_cons, List.not_mem_nil, or_false] at hkv
    rcases hkv with h | h | h | h <;> (subst h; decide)
  · intro kv hkv
    simp only [List.mem_cons, List.not_mem_nil, or_false] at hkv
    rcases hkv with h | h | h | h <;> subst h
    · exact OkVP.int _
    · exact OkVP.str _ (by decide)
    · refine OkVP.list _ ?_
      intro w hw
      simp only [List.mem_cons, List.not_mem_nil, or_false] at hw
      rcases hw with h | h <;> subst h <;> exact OkVP.int _
    · refine OkVP.dict _ ?_ ?_
      · intro m hm
        simp only [List.mem_singleton] at hm
        subst hm
        decide
      · intro m hm
        simp only [List.mem_singleton] at hm
        subst hm
        exact OkVP.null
